import Mathlib

/-! TradeGuard front end: the search / autocomplete controller of `App.jsx`.

A shallow embedding of the React component `App` (src/frontend/src/App.jsx).
The component state (the `useState` cells and the `useRef` timer handle) is a
record; every handler and effect is a function on that record.  Asynchronous
functions are split at their `await`: the part before it issues a request
(recorded in `log` and in `pending`), the part after it is a continuation that
is applied when the reply is delivered.  Timers created by `setTimeout` live in
an explicit timer table that a `tick` ages by one time unit.
-/

namespace TradeGuard

/-! ## JavaScript strings -/

/-- White space removed by `String.prototype.trim`: the ECMAScript WhiteSpace
and LineTerminator code points. -/
def isJsWhiteSpace (c : Char) : Bool :=
  let n := c.toNat
  n == 9 || n == 10 || n == 11 || n == 12 || n == 13 || n == 32 || n == 160 ||
  n == 5760 || (8192 ≤ n && n ≤ 8202) || n == 8232 || n == 8233 || n == 8239 ||
  n == 8287 || n == 12288 || n == 65279

/-- Characters of `s.trim()`. -/
def jsTrimChars (cs : List Char) : List Char :=
  ((cs.dropWhile isJsWhiteSpace).reverse.dropWhile isJsWhiteSpace).reverse

/-- The method `String.prototype.trim`. -/
def jsTrim (s : String) : String := String.mk (jsTrimChars s.data)

/-- The property `length` of a JavaScript string: the number of UTF-16 code
units (two for a code point above the basic plane). -/
def jsLength (s : String) : Nat :=
  (s.data.map (fun c => if c.toNat < 65536 then 1 else 2)).sum

/-- The expression `x || d` for a string-or-absent `x`: absent and the empty
string are falsy. -/
def jsOrString (x : Option String) (d : String) : String :=
  match x with
  | some v => if v = "" then d else v
  | none => d

/-! ## Data model -/

/-- A market as delivered inside an event (line 449 ff.); only the ticker takes
part in the logic. -/
structure Market where
  ticker : String
  title : String
  deriving DecidableEq, Repr

/-- An event record of a `/search` reply. -/
structure Event where
  event_ticker : Option String
  title : String
  category : Option String
  markets : List Market
  deriving DecidableEq, Repr

/-- An autocomplete suggestion (lines 83-87); the trending chips of
`/suggestions` have the same shape. -/
structure Suggestion where
  title : String
  category : String
  event_ticker : Option String
  deriving DecidableEq, Repr

/-- A trade of the detail view. -/
structure Trade where
  taker_side : String
  count : Nat
  yes_price : Nat
  deriving DecidableEq, Repr

/-- An order book snapshot; the empty object of line 280 has both sides absent. -/
structure Orderbook where
  yes : Option (List (Nat × Nat))
  no : Option (List (Nat × Nat))
  deriving DecidableEq, Repr

/-- The aggregate stored by `setMarketDetails` (lines 277-281). -/
structure MarketDetails where
  market : Option Market
  trades : List Trade
  orderbook : Orderbook
  deriving DecidableEq, Repr

/-- The cell `stats`; a field is absent when the reply body lacks it. -/
structure Stats where
  total : Option Nat
  returned : Option Nat
  deriving DecidableEq, Repr

/-- The constant `CATEGORIES` (lines 6-19). -/
def CATEGORIES : List String :=
  ["All", "Politics", "Crypto", "Sports", "Economics", "Climate and Weather", "World",
   "Science and Technology", "Companies", "Entertainment", "Health", "Elections"]

/-! ## Remote calls and replies -/

/-- The parameters of a `/search` call. -/
structure SearchParams where
  query : Option String
  category : Option String
  limit : Nat
  deriving DecidableEq, Repr

/-- A remote call, tagged with the function that issues it. -/
inductive Call where
  | autocomplete (p : SearchParams)
  | search (p : SearchParams)
  | loadEvents (p : SearchParams)
  | suggestions
  | market (ticker : String)
  | trades (ticker : String) (limit : Nat)
  | orderbook (ticker : String) (depth : Nat)
  deriving DecidableEq, Repr

/-- A request whose reply has not been delivered yet; the three detail fetches
of one `fetchMarketDetails` are awaited together. -/
inductive Pending where
  | autocomplete (trimmedQuery : String)
  | search
  | loadEvents
  | suggestions
  | details (ticker : String)
  deriving DecidableEq, Repr

/-- What `await fetch(..)` followed by `await response.json()` yields:
`fetch` rejects (transport failure), or a response with its `ok` flag whose
`json()` either rejects with a message or yields the body. -/
inductive FetchResult (β : Type) where
  | rejected (message : String)
  | response (ok : Bool) (json : Except String β)

/-- Body of a `/search` reply (a JSON object; every field may be absent). -/
structure SearchBody where
  events : Option (List Event)
  total : Option Nat
  returned : Option Nat
  error : Option String

/-- Body of a `/suggestions` reply. -/
structure SuggestionsBody where
  suggestions : Option (List Suggestion)

/-- Body of a `/markets/T` reply. -/
structure MarketBody where
  market : Option Market

/-- Body of a `/markets/T/trades` reply. -/
structure TradesBody where
  trades : Option (List Trade)

/-- Body of a `/markets/T/orderbook` reply. -/
structure OrderbookBody where
  orderbook : Option Orderbook

/-- A delivered reply. -/
inductive Reply where
  | search (r : FetchResult SearchBody)
  | suggestions (r : FetchResult SuggestionsBody)
  | details (m : FetchResult MarketBody) (t : FetchResult TradesBody)
      (o : FetchResult OrderbookBody)

/-! ## Timers -/

/-- The callback of a timer: the debounced lookup of lines 66-101 with the
`trimmedQuery` it closes over, or the delayed form submission of lines 208-210. -/
inductive TimerTask where
  | lookup (trimmedQuery : String)
  | submit
  deriving DecidableEq, Repr

/-- An armed timer: its handle, the time left and its callback. -/
structure Timer where
  id : Nat
  remaining : Nat
  task : TimerTask
  deriving DecidableEq, Repr

/-- Whether the timer is a debounce timer. -/
def Timer.isLookup (t : Timer) : Bool :=
  match t.task with
  | .lookup _ => true
  | .submit => false

/-! ## Component state -/

/-- The state of `App`: the `useState` cells (lines 22-35), the timer handle
`autocompleteTimeoutRef` (line 37), the timer table of the runtime, the
requests in flight and the log of the calls issued so far. -/
structure State where
  searchQuery : String
  activeCategory : String
  events : List Event
  suggestions : List Suggestion
  selectedMarket : Option Market
  marketDetails : Option MarketDetails
  loading : Bool
  error : Option String
  stats : Stats
  autocompleteResults : List Suggestion
  selectedIndex : Int
  showAutocomplete : Bool
  autocompleteTimeoutRef : Option Nat
  timers : List Timer
  nextTimerId : Nat
  pending : List Pending
  log : List Call
  deriving DecidableEq, Repr

/-- The initial values of the cells (lines 22-38); timer handles are positive
integers, so the first one is 1. -/
def initialState : State :=
  { searchQuery := ""
    activeCategory := "All"
    events := []
    suggestions := []
    selectedMarket := none
    marketDetails := none
    loading := false
    error := none
    stats := { total := some 0, returned := some 0 }
    autocompleteResults := []
    selectedIndex := -1
    showAutocomplete := false
    autocompleteTimeoutRef := none
    timers := []
    nextTimerId := 1
    pending := []
    log := [] }

/-! ## The suggestion deduplicator (lines 76-90) -/

/-- The object pushed at lines 83-87. -/
def toSuggestion (e : Event) : Suggestion :=
  { title := e.title
    category := jsOrString e.category "Uncategorized"
    event_ticker := e.event_ticker }

/-- The loop of lines 80-90, with `seenTitles` and `uniqueSuggestions` as
accumulators; the `break` of line 88 returns the list at once. -/
def dedupLoop (seenTitles : List String) (uniqueSuggestions : List Suggestion) :
    List Event → List Suggestion
  | [] => uniqueSuggestions
  | event :: rest =>
    if seenTitles.contains event.title then dedupLoop seenTitles uniqueSuggestions rest
    else
      let pushed := uniqueSuggestions ++ [toSuggestion event]
      if 8 ≤ pushed.length then pushed
      else dedupLoop (event.title :: seenTitles) pushed rest

/-- The list `uniqueSuggestions` built at lines 77-90 from `data.events`. -/
def uniqueSuggestions (events : List Event) : List Suggestion :=
  dedupLoop [] [] events

/-- The first event of each distinct title, in input order: the wording of the
deduplication contract, independent of the loop. -/
def keepFirstByTitle : List Event → List Event
  | [] => []
  | e :: es => e :: (keepFirstByTitle es).filter (fun x => decide (x.title ≠ e.title))

/-! ## Runtime primitives -/

/-- The call `clearTimeout(id)`: the timer with that handle, if still armed, is
removed from the table. -/
def clearTimeout (id : Nat) (s : State) : State :=
  { s with timers := s.timers.filter (fun t => decide (t.id ≠ id)) }

/-- The call `setTimeout(task, delay)`: arms a timer under a fresh handle and
returns the handle with the new state. -/
def setTimeout (task : TimerTask) (delay : Nat) (s : State) : State × Nat :=
  ({ s with timers := s.timers ++ [{ id := s.nextTimerId, remaining := delay, task := task }]
            nextTimerId := s.nextTimerId + 1 }, s.nextTimerId)

/-- The call `fetch(url)` up to its `await`: the call is logged and awaited. -/
def fetchCalls (calls : List Call) (p : Pending) (s : State) : State :=
  { s with log := s.log ++ calls, pending := s.pending ++ [p] }

/-! ## The autocomplete effect (lines 52-108) -/

/-- Lines 53-55 and the cleanup of lines 103-107 (the same statement): the
timer named by the handle is cleared; a handle is a positive integer, hence
truthy whenever one has been stored. -/
def clearAutocompleteTimer (s : State) : State :=
  match s.autocompleteTimeoutRef with
  | some id => clearTimeout id s
  | none => s

/-- The effect of lines 52-108, run after a render in which `searchQuery`
changed: the cleanup of the previous run, then the body. -/
def autocompleteEffect (s : State) : State :=
  let s := clearAutocompleteTimer (clearAutocompleteTimer s)
  let trimmedQuery := jsTrim s.searchQuery
  if trimmedQuery = "" ∨ jsLength trimmedQuery < 2 then
    { s with autocompleteResults := [], showAutocomplete := false, selectedIndex := -1 }
  else
    let armed := setTimeout (.lookup trimmedQuery) 300 s
    { armed.1 with autocompleteTimeoutRef := some armed.2 }

/-- The timer callback of lines 66-72, up to `await fetch`: the lookup is
issued with the query and limit 8. -/
def autocompleteLookup (trimmedQuery : String) (s : State) : State :=
  fetchCalls [.autocomplete { query := some trimmedQuery, category := none, limit := 8 }]
    (.autocomplete trimmedQuery) s

/-- The `catch` branch of lines 96-100. -/
def autocompleteCatch (s : State) : State :=
  { s with autocompleteResults := [], showAutocomplete := false }

/-- The timer callback after its `await`s (lines 73-100). -/
def autocompleteReply (r : FetchResult SearchBody) (s : State) : State :=
  match r with
  | .rejected _ => autocompleteCatch s
  | .response _ (.error _) => autocompleteCatch s
  | .response ok (.ok data) =>
    if ok then
      match data.events with
      | some events =>
        let unique := uniqueSuggestions events
        { s with autocompleteResults := unique
                 showAutocomplete := decide (0 < unique.length)
                 selectedIndex := -1 }
      | none => s
    else s

/-! ## Loading and searching (lines 135-200) -/

/-- The function `loadSuggestions` up to its `await` (line 137). -/
def loadSuggestions (s : State) : State :=
  fetchCalls [.suggestions] .suggestions s

/-- The function `loadSuggestions` after its `await`s (lines 138-144). -/
def loadSuggestionsReply (r : FetchResult SuggestionsBody) (s : State) : State :=
  match r with
  | .response true (.ok data) => { s with suggestions := data.suggestions.getD [] }
  | _ => s

/-- The function `loadEvents` up to its `await` (lines 148-156);
`activeCategory` is the value in the closure of the calling render. -/
def loadEvents (activeCategory : String) (s : State) : State :=
  let s := { s with loading := true, error := none }
  let params : SearchParams :=
    if activeCategory = "All" then { query := none, category := none, limit := 100 }
    else { query := none, category := some activeCategory, limit := 100 }
  fetchCalls [.loadEvents params] .loadEvents s

/-- The common shape of lines 157-170 and 188-199: on success the events and
stats are replaced, on failure the message is stored and the events emptied;
`loading` is reset in both cases. -/
def searchReply (fallback : String) (r : FetchResult SearchBody) (s : State) : State :=
  match r with
  | .rejected message => { s with error := some message, events := [], loading := false }
  | .response _ (.error message) =>
    { s with error := some message, events := [], loading := false }
  | .response ok (.ok data) =>
    if ok then
      { s with events := data.events.getD []
               stats := { total := data.total, returned := data.returned }
               loading := false }
    else
      { s with error := some (jsOrString data.error fallback), events := [], loading := false }

/-- The function `loadEvents` after its `await`s (lines 157-170). -/
def loadEventsReply (r : FetchResult SearchBody) (s : State) : State :=
  searchReply "Failed to load events" r s

/-- The parameters built at lines 182-185. -/
def searchParams (s : State) : SearchParams :=
  { query := if jsTrim s.searchQuery = "" then none else some (jsTrim s.searchQuery)
    category := if s.activeCategory ≠ "All" then some s.activeCategory else none
    limit := 100 }

/-- The function `handleSearch` up to its `await` (lines 173-187). -/
def handleSearch (s : State) : State :=
  let s := { s with loading := true, error := none, selectedMarket := none
                    marketDetails := none }
  fetchCalls [.search (searchParams s)] .search s

/-- The function `handleSearch` after its `await`s (lines 188-199). -/
def handleSearchReply (r : FetchResult SearchBody) (s : State) : State :=
  searchReply "Search failed" r s

/-! ## Market details (lines 262-292) -/

/-- The function `fetchMarketDetails` up to its first `await` (lines 263-269). -/
def fetchMarketDetails (ticker : String) (s : State) : State :=
  fetchCalls [.market ticker, .trades ticker 20, .orderbook ticker 5] (.details ticker)
    { s with loading := true }

/-- The function `fetchMarketDetails` after its `await`s (lines 271-286): the
aggregate is stored unless a `fetch` or a `json()` rejected; `ok` is not read. -/
def fetchMarketDetailsReply (m : FetchResult MarketBody) (t : FetchResult TradesBody)
    (o : FetchResult OrderbookBody) (s : State) : State :=
  match m, t, o with
  | .response _ (.ok marketData), .response _ (.ok tradesData),
      .response _ (.ok orderbookData) =>
    { s with marketDetails := some
               { market := marketData.market
                 trades := tradesData.trades.getD []
                 orderbook := orderbookData.orderbook.getD { yes := none, no := none } }
             loading := false }
  | _, _, _ => { s with loading := false }

/-- The function `handleSelectMarket` (lines 289-292). -/
def handleSelectMarket (market : Market) (s : State) : State :=
  fetchMarketDetails market.ticker { s with selectedMarket := some market }

/-! ## Handlers of the search box (lines 202-260, 294-298, 334-352) -/

/-- The function `handleSuggestionClick` (lines 202-211). -/
def handleSuggestionClick (suggestion : Suggestion) (s : State) : State :=
  let s := { s with searchQuery := suggestion.title, activeCategory := "All"
                    showAutocomplete := false, selectedIndex := -1 }
  (setTimeout .submit 100 s).1

/-- The function `handleAutocompleteSelect` (lines 213-217); the argument is
absent when `autocompleteResults[selectedIndex]` is out of range. -/
def handleAutocompleteSelect (suggestion : Option Suggestion) (s : State) : State :=
  match suggestion with
  | some sg => handleSuggestionClick sg s
  | none => s

/-- The keys told apart by `handleKeyDown`. -/
inductive Key where
  | arrowDown
  | arrowUp
  | enter
  | escape
  | other
  deriving DecidableEq, Repr

/-- The function `handleKeyDown` (lines 219-255); the flag tells whether
`preventDefault` was called. -/
def handleKeyDown (key : Key) (s : State) : State × Bool :=
  if !s.showAutocomplete || s.autocompleteResults.length == 0 then (s, false)
  else
    match key with
    | .arrowDown =>
      ({ s with selectedIndex :=
                  if s.selectedIndex < (s.autocompleteResults.length : Int) - 1
                  then s.selectedIndex + 1 else s.selectedIndex }, true)
    | .arrowUp =>
      ({ s with selectedIndex := if s.selectedIndex > 0 then s.selectedIndex - 1 else -1 },
        true)
    | .enter =>
      if s.selectedIndex ≥ 0 ∧ s.selectedIndex < (s.autocompleteResults.length : Int) then
        (handleAutocompleteSelect (s.autocompleteResults.get? s.selectedIndex.toNat) s, true)
      else
        ({ s with showAutocomplete := false, selectedIndex := -1 }, false)
    | .escape => ({ s with showAutocomplete := false, selectedIndex := -1 }, true)
    | .other => (s, false)

/-- The function `handleCategoryClick` (lines 257-260). -/
def handleCategoryClick (category : String) (s : State) : State :=
  { s with activeCategory := category, searchQuery := "" }

/-- The function `clearSearch` (lines 294-298); its `loadEvents()` runs in the
closure of the render in which the button was pressed, so it reads the
category of the state before the press. -/
def clearSearch (s : State) : State :=
  loadEvents s.activeCategory { s with searchQuery := "", activeCategory := "All" }

/-- The `onClick` of the clear button (lines 348-352). -/
def handleClearClick (s : State) : State :=
  { clearSearch s with showAutocomplete := false, selectedIndex := -1 }

/-- The `onChange` of the input (lines 334-337). -/
def handleChange (value : String) (s : State) : State :=
  { s with searchQuery := value, showAutocomplete := true }

/-- The `onFocus` of the input (lines 339-343). -/
def handleFocus (s : State) : State :=
  if s.autocompleteResults.length > 0 ∧ jsLength (jsTrim s.searchQuery) ≥ 2 then
    { s with showAutocomplete := true }
  else s

/-- The listener `handleClickOutside` (lines 112-117) for a press whose target
lies outside the search wrapper. -/
def handleClickOutside (s : State) : State :=
  { s with showAutocomplete := false, selectedIndex := -1 }

/-- The condition under which the dropdown is rendered (line 356). -/
def dropdownRendered (s : State) : Bool :=
  s.showAutocomplete && decide (s.autocompleteResults.length > 0)

/-! ## Rendering, effects and the step function -/

/-- The effects run after the render that follows a handler: the effect of
lines 47-49 when `activeCategory` changed, then the effect of lines 52-108 when
`searchQuery` changed (declaration order). -/
def runEffects (before s : State) : State :=
  let s := if s.activeCategory ≠ before.activeCategory then loadEvents s.activeCategory s else s
  if s.searchQuery ≠ before.searchQuery then autocompleteEffect s else s

/-- A handler followed by the effects of the resulting render. -/
def commit (handler : State → State) (s : State) : State :=
  runEffects s (handler s)

/-- The effects of the first render (lines 41-44, 47-49, 52-108). -/
def mount (s : State) : State :=
  autocompleteEffect (loadEvents s.activeCategory (loadEvents s.activeCategory (loadSuggestions s)))

/-- The component after mounting. -/
def mounted : State := mount initialState

/-- A form submission by the user (the submit button or the implicit
submission on Enter); the button is disabled while `loading` (line 374). -/
def userSubmit (s : State) : State :=
  if s.loading then s else handleSearch s

/-- A timer callback. -/
def fireTimer (s : State) (t : Timer) : State :=
  match t.task with
  | .lookup trimmedQuery => autocompleteLookup trimmedQuery s
  | .submit => handleSearch s

/-- A timer one time unit later. -/
def Timer.aged (t : Timer) : Timer :=
  { t with remaining := t.remaining - 1 }

/-- The timers that expire with the next time unit. -/
def dueTimers (s : State) : List Timer :=
  (s.timers.map Timer.aged).filter (fun t => t.remaining == 0)

/-- The timers that stay armed after the next time unit. -/
def keptTimers (s : State) : List Timer :=
  (s.timers.map Timer.aged).filter (fun t => t.remaining != 0)

/-- One time unit passes: every timer ages, and those that reach zero fire in
the order in which they were armed. -/
def tick (s : State) : State :=
  (dueTimers s).foldl fireTimer { s with timers := keptTimers s }

/-- The delivery of a reply to a request in flight. -/
def deliver (p : Pending) (r : Reply) (s : State) : State :=
  match p, r with
  | .autocomplete _, .search res => autocompleteReply res s
  | .search, .search res => handleSearchReply res s
  | .loadEvents, .search res => loadEventsReply res s
  | .suggestions, .suggestions res => loadSuggestionsReply res s
  | .details _, .details m t o => fetchMarketDetailsReply m t o s
  | _, _ => s

/-- What can happen to the mounted component. -/
inductive Input where
  | change (value : String)
  | focus
  | keyDown (key : Key)
  | hover (index : Nat)
  | clickItem (index : Nat)
  | pressOutside
  | clickClear
  | clickCategory (category : String)
  | clickChip (index : Nat)
  | submit
  | selectMarket (market : Market)
  | closeDetails
  | tick
  | reply (index : Nat) (r : Reply)

/-- One transition of the component.  An input that the rendered page cannot
produce in the state (a hover over an item that is not rendered, a reply to a
request that is not in flight, an `onChange` that does not change the value)
leaves the state as it is. -/
def step (s : State) : Input → State
  | .change value => if value = s.searchQuery then s else commit (handleChange value) s
  | .focus => handleFocus s
  | .keyDown key =>
    let handled := handleKeyDown key s
    let s1 := runEffects s handled.1
    if key = .enter ∧ handled.2 = false then userSubmit s1 else s1
  | .hover index =>
    if dropdownRendered s ∧ index < s.autocompleteResults.length then
      { s with selectedIndex := (index : Int) }
    else s
  | .clickItem index =>
    if dropdownRendered s then
      match s.autocompleteResults.get? index with
      | some sg => commit (handleAutocompleteSelect (some sg)) s
      | none => s
    else s
  | .pressOutside => handleClickOutside s
  | .clickClear => if s.searchQuery = "" then s else commit handleClearClick s
  | .clickCategory category =>
    if category ∈ CATEGORIES then commit (handleCategoryClick category) s else s
  | .clickChip index =>
    if s.suggestions.length > 0 ∧ s.searchQuery = "" then
      match (s.suggestions.take 10).get? index with
      | some sg => commit (handleSuggestionClick sg) s
      | none => s
    else s
  | .submit => userSubmit s
  | .selectMarket market =>
    if s.events.any (fun e => (e.markets.take 5).contains market) then
      handleSelectMarket market s
    else s
  | .closeDetails => { s with selectedMarket := none }
  | .tick => tick s
  | .reply index r =>
    match s.pending.get? index with
    | some p => deliver p r { s with pending := s.pending.eraseIdx index }
    | none => s

/-- The state after a sequence of inputs. -/
def run (s : State) (inputs : List Input) : State :=
  inputs.foldl step s

/-- The states the mounted component can reach. -/
inductive Reachable : State → Prop where
  | init : Reachable mounted
  | step (s : State) (i : Input) : Reachable s → Reachable (step s i)

/-! ## Specification-side definitions -/

/-- The suggestion the deduplication contract assigns to an event: its title
and ticker, and its category, or "Uncategorized" when it has none (the field
is absent or empty). -/
def suggestionOf (e : Event) : Suggestion :=
  { title := e.title
    category :=
      match e.category with
      | none => "Uncategorized"
      | some c => if c = "" then "Uncategorized" else c
    event_ticker := e.event_ticker }

/-- Whether a logged call is an autocomplete lookup. -/
def Call.isAutocomplete : Call → Bool
  | .autocomplete _ => true
  | _ => false

/-- Whether a logged call is a full search issued by `handleSearch`. -/
def Call.isSearch : Call → Bool
  | .search _ => true
  | _ => false

/-- The debounce timers that are armed. -/
def lookupTimers (s : State) : List Timer :=
  s.timers.filter Timer.isLookup

/-- The autocomplete lookups issued so far. -/
def lookupCalls (s : State) : List Call :=
  s.log.filter Call.isAutocomplete

/-- The call a timer callback issues when it fires in state `s`. -/
def timerCall (s : State) (t : Timer) : Call :=
  match t.task with
  | .lookup q => .autocomplete { query := some q, category := none, limit := 8 }
  | .submit => .search (searchParams s)

/-- A burst of keystrokes: each value is typed and followed by its gap of
quiet time units. -/
def burst : List (String × Nat) → List Input
  | [] => []
  | (value, gap) :: rest => .change value :: (List.replicate gap .tick ++ burst rest)

/-- The well-formedness of the timer table and of the requests in flight. -/
structure TimerInv (s : State) : Prop where
  ref_lt : ∀ id, s.autocompleteTimeoutRef = some id → id < s.nextTimerId
  id_lt : ∀ t ∈ s.timers, t.id < s.nextTimerId
  lookup_ref : ∀ t ∈ s.timers, t.isLookup = true → s.autocompleteTimeoutRef = some t.id
  lookup_le_one : (lookupTimers s).length ≤ 1
  timer_query : ∀ t ∈ s.timers, ∀ q, t.task = .lookup q → 2 ≤ jsLength q
  pending_query : ∀ q, Pending.autocomplete q ∈ s.pending → 2 ≤ jsLength q

/-- Whether an input is the late delivery of suggestions: a successful reply
to an autocomplete lookup that carries at least one event and arrives while
the trimmed `searchQuery` is shorter than 2. -/
def lateSuggestions (s : State) : Input → Bool
  | .reply index (.search (.response true (.ok data))) =>
    match s.pending.get? index, data.events with
    | some (.autocomplete _), some (_ :: _) => decide (jsLength (jsTrim s.searchQuery) < 2)
    | _, _ => false
  | _ => false

/-- The states reachable when no suggestions are delivered late; every other
input, a lookup reply for a superseded query included, is admitted. -/
inductive ReachableTimely : State → Prop where
  | init : ReachableTimely mounted
  | step (s : State) (i : Input) :
      ReachableTimely s → lateSuggestions s i = false → ReachableTimely (step s i)

/-! ## Sample values -/

/-- A sample event without category. -/
def sampleA : Event := { event_ticker := none, title := "A", category := none, markets := [] }

/-- A sample event with a category and two markets. -/
def sampleB : Event :=
  { event_ticker := some "EB", title := "B", category := some "Crypto"
    markets := [{ ticker := "T1", title := "one" }, { ticker := "T2", title := "two" }] }

/-- A successful `/search` reply carrying the given events. -/
def okReply (events : List Event) : Reply :=
  .search (.response true (.ok { events := some events, total := some events.length
                                 returned := some events.length, error := none }))

/-- A `/search` reply with status 500 and a JSON error body. -/
def errorReply : Reply :=
  .search (.response false (.ok { events := none, total := none, returned := none
                                  error := some "boom" }))

/-- Typing "ab" into the mounted component, letting the debounce expire and
receiving two suggestions: the dropdown is shown. -/
def toVisible : List Input :=
  [.change "ab"] ++ List.replicate 300 .tick ++ [.reply 3 (okReply [sampleA, sampleB])]

/-- The state reached by `toVisible`. -/
def visibleState : State := run mounted toVisible

/-- A detail aggregate of market T2. -/
def detailsT2 : MarketDetails :=
  { market := some { ticker := "T2", title := "two" }, trades := []
    orderbook := { yes := some [(40, 10)], no := none } }

/-- The market T1 of `sampleB`. -/
def marketT1 : Market := { ticker := "T1", title := "one" }

/-- The market T2 of `sampleB`. -/
def marketT2 : Market := { ticker := "T2", title := "two" }

/-- The three successful detail replies for market T2. -/
def detailReplyT2 : Reply :=
  .details (.response true (.ok { market := some marketT2 }))
    (.response true (.ok { trades := some [] }))
    (.response true (.ok { orderbook := some { yes := some [(40, 10)], no := none } }))

/-- The events arrive, market T2 is selected and its three detail fetches
resolve. -/
def toDetailT2 : List Input :=
  [.reply 1 (okReply [sampleB]), .selectMarket marketT2, .reply 2 detailReplyT2]

/-- The state reached by `toDetailT2`: the detail aggregate of T2 is loaded. -/
def detailState : State := run mounted toDetailT2

/-- The inputs after `toVisible` that lead to a stale highlight: the second
suggestion is highlighted with the arrow keys, the query is extended and the
lookup for the new query throws. -/
def afterVisible : List Input :=
  [.keyDown .arrowDown, .keyDown .arrowDown, .change "abc"] ++
    List.replicate 300 .tick ++ [.reply 3 (.search (.rejected "Failed to fetch"))]

/-- The state reached by `toVisible` followed by `afterVisible`. -/
def staleIndexState : State := run mounted (toVisible ++ afterVisible)

/-- The fields of `visibleState`, written out. -/
def visibleRecord : State :=
  { searchQuery := "ab"
    activeCategory := "All"
    events := []
    suggestions := []
    selectedMarket := none
    marketDetails := none
    loading := true
    error := none
    stats := { total := some 0, returned := some 0 }
    autocompleteResults :=
      [{ title := "A", category := "Uncategorized", event_ticker := none },
       { title := "B", category := "Crypto", event_ticker := some "EB" }]
    selectedIndex := -1
    showAutocomplete := true
    autocompleteTimeoutRef := some 1
    timers := []
    nextTimerId := 2
    pending := [.suggestions, .loadEvents, .loadEvents]
    log := [.suggestions,
            .loadEvents { query := none, category := none, limit := 100 },
            .loadEvents { query := none, category := none, limit := 100 },
            .autocomplete { query := some "ab", category := none, limit := 8 }] }

/-- Whether a run delivers no suggestions late. -/
def timelyRun (s : State) : List Input → Bool
  | [] => true
  | i :: rest => !lateSuggestions s i && timelyRun (step s i) rest

/-- The query "ab" is extended to "abc" while its lookup is in flight, and
the reply to the lookup for "ab" arrives afterwards. -/
def toTypeAhead : List Input :=
  [.change "ab"] ++ List.replicate 300 .tick ++
    [.change "abc", .reply 3 (okReply [sampleA, sampleB])]

/-- The query-length condition of the dropdown: a set visibility flag and a
non-empty suggestion list each imply a trimmed query of length at least 2. -/
def QueryInv (s : State) : Prop :=
  (s.showAutocomplete = true → 2 ≤ jsLength (jsTrim s.searchQuery)) ∧
  (s.autocompleteResults ≠ [] → 2 ≤ jsLength (jsTrim s.searchQuery))

/-- The query is shortened while its lookup is in flight, and the reply to
the lookup arrives afterwards. -/
def toStaleReply : List Input :=
  [.change "ab"] ++ List.replicate 300 .tick ++ [.change "a", .reply 3 (okReply [sampleA])]

/-- The category tab "Crypto" is pressed and the query "btc" is typed. -/
def toScoped : List Input :=
  [.clickCategory "Crypto", .change "btc"]

/-- The state reached by `toScoped`: the category "Crypto" is active and the
clear button is rendered. -/
def scopedState : State := run mounted toScoped

/-- The number of time units that pass in a run. -/
def tickCount : List Input → Nat
  | [] => 0
  | .tick :: rest => tickCount rest + 1
  | _ :: rest => tickCount rest

/-- The handle in `autocompleteTimeoutRef` names no timer other than a
debounce timer. -/
def RefInv (s : State) : Prop :=
  ∀ t ∈ s.timers, s.autocompleteTimeoutRef = some t.id → t.isLookup = true

/-- The state right after the second suggestion of `visibleRecord` was
accepted by a click. -/
def acceptedState : State := step visibleRecord (.clickItem 1)

/-! Theorems -/

/-! ## Deduplication (C1) -/

theorem toSuggestion_eq_suggestionOf (e : Event) : toSuggestion e = suggestionOf e := by
  unfold toSuggestion suggestionOf jsOrString
  cases e.category <;> rfl

theorem keepFirstByTitle_filter (q : String → Bool) (l : List Event) :
    (keepFirstByTitle l).filter (fun x => q x.title) =
      keepFirstByTitle (l.filter (fun x => q x.title)) := by
  induction l with
  | nil => rfl
  | cons e es ih =>
    by_cases hq : q e.title = true
    · simp only [keepFirstByTitle, List.filter_cons, hq, if_true]
      rw [← ih, List.filter_filter, List.filter_filter]
      congr 1
      apply List.filter_congr
      intro x _
      exact Bool.and_comm _ _
    · rw [List.filter_cons, if_neg hq, ← ih]
      simp only [keepFirstByTitle]
      rw [List.filter_cons, if_neg hq, List.filter_filter]
      apply List.filter_congr
      intro x _
      by_cases hx : q x.title = true
      · have : x.title ≠ e.title := fun h => hq (h ▸ hx)
        simp [hx, this]
      · simp [hx]

theorem dedupLoop_eq (es : List Event) : ∀ (seen : List String) (acc : List Suggestion),
    acc.length < 8 →
    dedupLoop seen acc es =
      acc ++ ((keepFirstByTitle (es.filter (fun e => !seen.contains e.title))).take
        (8 - acc.length)).map toSuggestion := by
  induction es with
  | nil => intro seen acc _; simp [dedupLoop, keepFirstByTitle]
  | cons e es ih =>
    intro seen acc hacc
    by_cases hs : seen.contains e.title = true
    · simp only [dedupLoop, hs, if_true, List.filter_cons, Bool.not_true, Bool.false_eq_true,
        if_false]
      exact ih seen acc hacc
    · have hs' : seen.contains e.title = false := by simpa using hs
      obtain ⟨k, hk⟩ : ∃ k, 8 - acc.length = k + 1 := ⟨7 - acc.length, by omega⟩
      simp only [dedupLoop, hs', Bool.false_eq_true, if_false, List.filter_cons, Bool.not_false,
        if_true, keepFirstByTitle, hk, List.take_succ_cons, List.map_cons]
      have hlen1 : (acc ++ [toSuggestion e]).length = acc.length + 1 := by simp
      by_cases hfull : 8 ≤ (acc ++ [toSuggestion e]).length
      · have hk0 : k = 0 := by omega
        rw [if_pos hfull]
        subst hk0
        simp
      · rw [if_neg hfull]
        have hlen : (acc ++ [toSuggestion e]).length < 8 := by omega
        rw [ih (e.title :: seen) (acc ++ [toSuggestion e]) hlen]
        have hk' : 8 - (acc ++ [toSuggestion e]).length = k := by omega
        have hfilt : List.filter (fun x => decide (x.title ≠ e.title))
            (List.filter (fun e => !seen.contains e.title) es) =
            List.filter (fun x => !(e.title :: seen).contains x.title) es := by
          rw [List.filter_filter]
          apply List.filter_congr
          intro x _
          by_cases hx : x.title = e.title
          · simp [hx]
          · have : (x.title == e.title) = false := by simpa using hx
            simp [hx, List.contains_cons, this]
        rw [hk', keepFirstByTitle_filter (fun t => decide (t ≠ e.title)), hfilt]
        simp

theorem uniqueSuggestions_eq (es : List Event) :
    uniqueSuggestions es = ((keepFirstByTitle es).map suggestionOf).take 8 := by
  have h := dedupLoop_eq es [] [] (by decide)
  have hf : es.filter (fun e => !([] : List String).contains e.title) = es := by simp
  have hm : (toSuggestion : Event → Suggestion) = suggestionOf :=
    funext toSuggestion_eq_suggestionOf
  simpa [uniqueSuggestions, hf, hm, List.map_take] using h

/-- C1: after a successful autocomplete lookup (status ok, body with an
`events` array) the stored suggestion list is the first 8 elements of the
events reduced to the first one of each title, in input order, each mapped to
its suggestion; events titled A, B, A give the suggestions of the first two. -/
theorem autocomplete_results_dedup (s : State) (events : List Event)
    (total returned : Option Nat) (error : Option String) (a b a2 : Event) :
    (autocompleteReply (.response true (.ok ⟨some events, total, returned, error⟩))
        s).autocompleteResults
      = ((keepFirstByTitle events).map suggestionOf).take 8
    ∧ uniqueSuggestions [{ a with title := "A" }, { b with title := "B" }, { a2 with title := "A" }]
      = [suggestionOf { a with title := "A" }, suggestionOf { b with title := "B" }] := by
  refine ⟨?_, ?_⟩
  · simp [autocompleteReply, uniqueSuggestions_eq]
  · rw [uniqueSuggestions_eq]
    simp [keepFirstByTitle]

/-! ## Runs -/

theorem run_append (s : State) (xs ys : List Input) :
    run s (xs ++ ys) = run (run s xs) ys := by
  simp [run, List.foldl_append]

theorem run_cons (s : State) (x : Input) (xs : List Input) :
    run s (x :: xs) = run (step s x) xs := rfl

theorem run_nil (s : State) : run s [] = s := rfl

theorem reachable_run (inputs : List Input) : ∀ s, Reachable s → Reachable (run s inputs) := by
  induction inputs with
  | nil => intro s h; exact h
  | cons x xs ih => intro s h; exact ih _ (Reachable.step s x h)

set_option maxRecDepth 1000000 in
theorem visibleState_rendered : dropdownRendered visibleState = true := by decide

theorem visibleState_reachable : Reachable visibleState :=
  reachable_run toVisible mounted Reachable.init

/-! ## Lookup failure (C5) -/

/-- C5, failing input: in the reachable state that shows two suggestions, a
lookup reply with status 500 and a JSON error body leaves the two suggestions
in place and the dropdown shown. -/
theorem lookup_http_error_keeps_suggestions :
    Reachable visibleState ∧
    (autocompleteReply (.response false (.ok ⟨none, none, none, some "boom"⟩))
        visibleState).autocompleteResults = visibleState.autocompleteResults ∧
    visibleState.autocompleteResults.length = 2 ∧
    (autocompleteReply (.response false (.ok ⟨none, none, none, some "boom"⟩))
        visibleState).showAutocomplete = true := by
  refine ⟨visibleState_reachable, rfl, ?_, ?_⟩
  · set_option maxRecDepth 1000000 in decide
  · set_option maxRecDepth 1000000 in decide

/-- A lookup that throws (the `fetch` or the `json()` rejects) empties the
suggestion list and hides the dropdown, in every state. -/
theorem lookup_throw_hides (s : State) (message : String) (ok : Bool) :
    (autocompleteReply (.rejected message) s).autocompleteResults = [] ∧
    (autocompleteReply (.rejected message) s).showAutocomplete = false ∧
    (autocompleteReply (.response ok (.error message)) s).autocompleteResults = [] ∧
    (autocompleteReply (.response ok (.error message)) s).showAutocomplete = false :=
  ⟨rfl, rfl, rfl, rfl⟩

/-- A lookup reply with a non-success status changes nothing, in every state. -/
theorem lookup_http_error_noop (s : State) (data : SearchBody) :
    autocompleteReply (.response false (.ok data)) s = s := rfl

/-! ## Full search (C7) -/

/-- C7: `handleSearch` issues exactly one search call, with the trimmed query
(present iff non-empty), the active category (present iff it is not "All") and
limit 100; a success reply replaces events (empty when absent) and stats; a
non-success status or a throw empties events and stores the failure message
(the body's error field when present and non-empty, "Search failed" for a
status failure without one, the thrown message otherwise). -/
theorem handleSearch_contract (s s1 : State) (data : SearchBody) (message : String)
    (ok : Bool) :
    (handleSearch s).log = s.log ++
      [Call.search
        { query := if jsTrim s.searchQuery = "" then none else some (jsTrim s.searchQuery)
          category := if s.activeCategory = "All" then none else some s.activeCategory
          limit := 100 }] ∧
    (handleSearch s).pending = s.pending ++ [Pending.search] ∧
    ((handleSearchReply (.response true (.ok data)) s1).events = data.events.getD [] ∧
      (handleSearchReply (.response true (.ok data)) s1).stats
        = { total := data.total, returned := data.returned }) ∧
    ((handleSearchReply (.response false (.ok data)) s1).events = [] ∧
      (handleSearchReply (.response false (.ok data)) s1).error = some
        (match data.error with
          | some e => if e = "" then "Search failed" else e
          | none => "Search failed")) ∧
    ((handleSearchReply (.rejected message) s1).events = [] ∧
      (handleSearchReply (.rejected message) s1).error = some message) ∧
    ((handleSearchReply (.response ok (.error message)) s1).events = [] ∧
      (handleSearchReply (.response ok (.error message)) s1).error = some message) := by
  refine ⟨?_, rfl, ⟨rfl, rfl⟩, ⟨rfl, ?_⟩, ⟨rfl, rfl⟩, ⟨rfl, rfl⟩⟩
  · by_cases hc : s.activeCategory = "All" <;>
      simp [handleSearch, fetchCalls, searchParams, hc]
  · simp only [handleSearchReply, searchReply, jsOrString]
    cases data.error <;> rfl

/-! ## Market details (C9, C10) -/

/-- C9, failing input: with the aggregate of T2 loaded (a reachable state),
selecting T1 makes T1 the selected market and leaves the aggregate of T2 in
`marketDetails`. -/
theorem select_keeps_stale_details :
    Reachable detailState ∧
    detailState.marketDetails = some detailsT2 ∧
    (step detailState (.selectMarket marketT1)).selectedMarket = some marketT1 ∧
    (step detailState (.selectMarket marketT1)).marketDetails = some detailsT2 := by
  refine ⟨reachable_run toDetailT2 mounted Reachable.init, ?_, ?_, ?_⟩ <;> decide

/-- The function `handleSelectMarket` never touches `marketDetails`. -/
theorem handleSelectMarket_marketDetails (market : Market) (s : State) :
    (handleSelectMarket market s).marketDetails = s.marketDetails := rfl

/-- C10, failing input: the market and order book fetches succeed and the
trades fetch answers with status 500 and a JSON error body; the aggregate is
stored all the same, with an empty trade list. -/
theorem details_stored_despite_http_error :
    (fetchMarketDetailsReply (.response true (.ok { market := some marketT1 }))
        (.response false (.ok { trades := none }))
        (.response true (.ok { orderbook := some { yes := some [(40, 10)], no := none } }))
        mounted).marketDetails
      = some { market := some marketT1, trades := []
               orderbook := { yes := some [(40, 10)], no := none } } := by
  decide

/-- When a detail fetch or a `json()` rejects, `marketDetails` is left as it
was: the aggregate is not stored. -/
theorem details_not_stored_on_throw (s : State) (message : String) (ok : Bool)
    (m : FetchResult MarketBody) (t : FetchResult TradesBody) (o : FetchResult OrderbookBody) :
    (fetchMarketDetailsReply (.rejected message) t o s).marketDetails = s.marketDetails ∧
    (fetchMarketDetailsReply (.response ok (.error message)) t o s).marketDetails
      = s.marketDetails ∧
    (fetchMarketDetailsReply m (.rejected message) o s).marketDetails = s.marketDetails ∧
    (fetchMarketDetailsReply m (.response ok (.error message)) o s).marketDetails
      = s.marketDetails ∧
    (fetchMarketDetailsReply m t (.rejected message) s).marketDetails = s.marketDetails ∧
    (fetchMarketDetailsReply m t (.response ok (.error message)) s).marketDetails
      = s.marketDetails := by
  refine ⟨rfl, rfl, ?_, ?_, ?_, ?_⟩ <;>
    (unfold fetchMarketDetailsReply; split <;> simp_all)

/-! ## Highlight index (C4) -/

set_option maxRecDepth 1000000 in
theorem visibleState_eq : visibleState = visibleRecord := by decide

theorem staleIndexState_eq : staleIndexState = run visibleRecord afterVisible := by
  rw [← visibleState_eq]
  exact run_append mounted toVisible afterVisible

/-- C4, failing input: after two suggestions were shown and the second one was
highlighted, a lookup that throws empties the list and leaves `selectedIndex`
at 1, above `length - 1 = -1`, in a reachable state. -/
theorem lookup_throw_keeps_index :
    Reachable staleIndexState ∧
    staleIndexState.autocompleteResults = [] ∧
    staleIndexState.selectedIndex = 1 ∧
    ¬ (staleIndexState.selectedIndex
        ≤ (staleIndexState.autocompleteResults.length : Int) - 1) := by
  refine ⟨reachable_run _ mounted Reachable.init, ?_, ?_, ?_⟩ <;>
    (rw [staleIndexState_eq]; set_option maxRecDepth 1000000 in decide)

/-! ## Arrow keys (C8) -/

theorem runEffects_same (before s : State) (hc : s.activeCategory = before.activeCategory)
    (hq : s.searchQuery = before.searchQuery) : runEffects before s = s := by
  simp [runEffects, hc, hq]

theorem step_arrowDown (s : State) (hshow : s.showAutocomplete = true)
    (hn : 1 ≤ s.autocompleteResults.length) :
    step s (.keyDown .arrowDown) =
      { s with selectedIndex :=
                 if s.selectedIndex < (s.autocompleteResults.length : Int) - 1
                 then s.selectedIndex + 1 else s.selectedIndex } := by
  have hlen : (s.autocompleteResults.length == 0) = false := by
    have : s.autocompleteResults.length ≠ 0 := by omega
    simpa using this
  simp [step, handleKeyDown, hshow, hlen, runEffects]

theorem arrowDown_iterate (k : Nat) : ∀ (s : State), s.showAutocomplete = true →
    1 ≤ s.autocompleteResults.length →
    -1 ≤ s.selectedIndex → s.selectedIndex ≤ (s.autocompleteResults.length : Int) - 1 →
    (run s (List.replicate k (.keyDown .arrowDown))).selectedIndex
      = min (s.selectedIndex + k) ((s.autocompleteResults.length : Int) - 1) ∧
    (run s (List.replicate k (.keyDown .arrowDown))).showAutocomplete = true ∧
    (run s (List.replicate k (.keyDown .arrowDown))).autocompleteResults
      = s.autocompleteResults := by
  induction k with
  | zero =>
    intro s hshow _ _ hhi
    refine ⟨?_, hshow, rfl⟩
    simp [run, hhi]
  | succ k ih =>
    intro s hshow hn hlo hhi
    rw [List.replicate_succ, run_cons, step_arrowDown s hshow hn]
    have h := ih { s with selectedIndex :=
                 if s.selectedIndex < (s.autocompleteResults.length : Int) - 1
                 then s.selectedIndex + 1 else s.selectedIndex } hshow hn
      (by dsimp only; split <;> omega) (by dsimp only; split <;> omega)
    refine ⟨?_, h.2.1, h.2.2⟩
    rw [h.1]
    dsimp only
    split <;> (simp only [Nat.cast_add, Nat.cast_one]; omega)

/-- C8: from a state that shows n >= 1 suggestions with no highlight, k >= 1
presses of ArrowDown give `selectedIndex = min (k-1) (n-1)`, keep the dropdown
shown and the list unchanged; each single press along the way computes
`min (selectedIndex + 1) (n - 1)` and never moves the index down. -/
theorem arrowDown_clamps (s : State) (k : Nat) (hshow : s.showAutocomplete = true)
    (hn : 1 ≤ s.autocompleteResults.length) (hidx : s.selectedIndex = -1) (_hk : 1 ≤ k) :
    (run s (List.replicate k (.keyDown .arrowDown))).selectedIndex
      = min ((k : Int) - 1) ((s.autocompleteResults.length : Int) - 1) ∧
    (run s (List.replicate k (.keyDown .arrowDown))).showAutocomplete = true ∧
    (run s (List.replicate k (.keyDown .arrowDown))).autocompleteResults
      = s.autocompleteResults ∧
    ∀ j, j < k →
      (step (run s (List.replicate j (.keyDown .arrowDown))) (.keyDown .arrowDown)).selectedIndex
        = min ((run s (List.replicate j (.keyDown .arrowDown))).selectedIndex + 1)
            ((s.autocompleteResults.length : Int) - 1) ∧
      (run s (List.replicate j (.keyDown .arrowDown))).selectedIndex
        ≤ (step (run s (List.replicate j (.keyDown .arrowDown)))
            (.keyDown .arrowDown)).selectedIndex := by
  have hlo : -1 ≤ s.selectedIndex := by omega
  have hhi : s.selectedIndex ≤ (s.autocompleteResults.length : Int) - 1 := by omega
  obtain ⟨h1, h2, h3⟩ := arrowDown_iterate k s hshow hn hlo hhi
  refine ⟨?_, h2, h3, ?_⟩
  · have hsum : (-1 : Int) + (k : Int) = (k : Int) - 1 := by omega
    rw [h1, hidx, hsum]
  · intro j _
    obtain ⟨g1, g2, g3⟩ := arrowDown_iterate j s hshow hn hlo hhi
    rw [step_arrowDown _ g2 (by rw [g3]; exact hn)]
    dsimp only
    rw [g3, g1]
    split <;> (constructor <;> omega)

/-- Witness for the ArrowDown clamping: three presses over the two suggestions of
`visibleRecord`. -/
theorem arrowDown_clamps_witness :
    (run visibleRecord (List.replicate 3 (.keyDown .arrowDown))).selectedIndex = 1 :=
  (arrowDown_clamps visibleRecord 3 (by decide) (by decide) (by decide) (by decide)).1

/-! ## The timer table -/

theorem timerInv_frame {s s1 : State} (h : TimerInv s) (ht : s1.timers = s.timers)
    (hr : s1.autocompleteTimeoutRef = s.autocompleteTimeoutRef)
    (hn : s1.nextTimerId = s.nextTimerId) (hp : s1.pending = s.pending) : TimerInv s1 where
  ref_lt := by rw [hr, hn]; exact h.ref_lt
  id_lt := by rw [ht, hn]; exact h.id_lt
  lookup_ref := by rw [ht, hr]; exact h.lookup_ref
  lookup_le_one := by unfold lookupTimers; rw [ht]; exact h.lookup_le_one
  timer_query := by rw [ht]; exact h.timer_query
  pending_query := by rw [hp]; exact h.pending_query

theorem timerInv_fetchCalls {s : State} (h : TimerInv s) (calls : List Call) (p : Pending)
    (hp : ∀ q, p = .autocomplete q → 2 ≤ jsLength q) : TimerInv (fetchCalls calls p s) where
  ref_lt := h.ref_lt
  id_lt := h.id_lt
  lookup_ref := h.lookup_ref
  lookup_le_one := h.lookup_le_one
  timer_query := h.timer_query
  pending_query := by
    intro q hq
    simp only [fetchCalls, List.mem_append, List.mem_singleton] at hq
    rcases hq with hq | hq
    · exact h.pending_query q hq
    · exact hp q hq.symm

theorem timerInv_loadEvents {s : State} (h : TimerInv s) (c : String) :
    TimerInv (loadEvents c s) := by
  unfold loadEvents
  apply timerInv_fetchCalls
  · exact timerInv_frame h rfl rfl rfl rfl
  · intro q hq; cases hq

theorem timerInv_handleSearch {s : State} (h : TimerInv s) : TimerInv (handleSearch s) := by
  unfold handleSearch
  apply timerInv_fetchCalls
  · exact timerInv_frame h rfl rfl rfl rfl
  · intro q hq; cases hq

theorem timerInv_loadSuggestions {s : State} (h : TimerInv s) :
    TimerInv (loadSuggestions s) :=
  timerInv_fetchCalls h _ Pending.suggestions (by intro q hq; cases hq)

theorem timerInv_handleSelectMarket {s : State} (h : TimerInv s) (m : Market) :
    TimerInv (handleSelectMarket m s) := by
  unfold handleSelectMarket fetchMarketDetails
  apply timerInv_fetchCalls
  · exact timerInv_frame h rfl rfl rfl rfl
  · intro q hq; cases hq

theorem timerInv_userSubmit {s : State} (h : TimerInv s) : TimerInv (userSubmit s) := by
  unfold userSubmit
  split
  · exact h
  · exact timerInv_handleSearch h

theorem filter_isLookup_length_le (p : Timer → Bool) (ts : List Timer) :
    ((ts.filter p).filter Timer.isLookup).length ≤ (ts.filter Timer.isLookup).length := by
  rw [List.filter_filter]
  have hsub : (ts.filter (fun a => Timer.isLookup a && p a)).Sublist (ts.filter Timer.isLookup) := by
    apply List.monotone_filter_right
    intro a ha
    simp only [Bool.and_eq_true] at ha
    exact ha.1
  exact hsub.length_le

theorem timerInv_filter {s : State} (h : TimerInv s) (p : Timer → Bool) :
    TimerInv { s with timers := s.timers.filter p } where
  ref_lt := h.ref_lt
  id_lt := fun t ht => h.id_lt t (List.mem_of_mem_filter ht)
  lookup_ref := fun t ht => h.lookup_ref t (List.mem_of_mem_filter ht)
  lookup_le_one := le_trans (filter_isLookup_length_le p s.timers) h.lookup_le_one
  timer_query := fun t ht => h.timer_query t (List.mem_of_mem_filter ht)
  pending_query := h.pending_query

theorem timerInv_clearAutocompleteTimer {s : State} (h : TimerInv s) :
    TimerInv (clearAutocompleteTimer s) := by
  unfold clearAutocompleteTimer
  split
  · exact timerInv_filter h _
  · exact h

theorem clearAutocompleteTimer_fields (s : State) :
    (clearAutocompleteTimer s).autocompleteTimeoutRef = s.autocompleteTimeoutRef ∧
    (clearAutocompleteTimer s).nextTimerId = s.nextTimerId ∧
    (clearAutocompleteTimer s).searchQuery = s.searchQuery ∧
    (clearAutocompleteTimer s).activeCategory = s.activeCategory ∧
    (clearAutocompleteTimer s).log = s.log ∧
    (clearAutocompleteTimer s).pending = s.pending ∧
    (clearAutocompleteTimer s).autocompleteResults = s.autocompleteResults ∧
    (clearAutocompleteTimer s).showAutocomplete = s.showAutocomplete ∧
    (clearAutocompleteTimer s).selectedIndex = s.selectedIndex := by
  unfold clearAutocompleteTimer
  split <;> simp [clearTimeout]

theorem clearAutocompleteTimer_no_lookup {s : State} (h : TimerInv s) :
    ∀ t ∈ (clearAutocompleteTimer s).timers, t.isLookup = false := by
  intro t ht
  by_contra hl
  have hl1 : t.isLookup = true := by simpa using hl
  unfold clearAutocompleteTimer at ht
  split at ht
  · rename_i id hid
    simp only [clearTimeout, List.mem_filter, decide_eq_true_eq] at ht
    have := h.lookup_ref t ht.1 hl1
    rw [hid] at this
    exact ht.2 (Option.some.inj this).symm
  · rename_i hnone
    have := h.lookup_ref t ht hl1
    rw [hnone] at this
    cases this

theorem clearAutocompleteTimer_mem (s : State) (t : Timer)
    (ht : t ∈ s.timers) (hne : s.autocompleteTimeoutRef ≠ some t.id) :
    t ∈ (clearAutocompleteTimer s).timers := by
  unfold clearAutocompleteTimer
  split
  · rename_i id hid
    simp only [clearTimeout, List.mem_filter, decide_eq_true_eq]
    refine ⟨ht, fun h => hne ?_⟩
    rw [hid, h]
  · exact ht

theorem jsLength_empty : jsLength "" = 0 := by decide

theorem timerInv_autocompleteEffect {s : State} (h : TimerInv s) :
    TimerInv (autocompleteEffect s) := by
  have hc : TimerInv (clearAutocompleteTimer (clearAutocompleteTimer s)) :=
    timerInv_clearAutocompleteTimer (timerInv_clearAutocompleteTimer h)
  have hno := clearAutocompleteTimer_no_lookup (timerInv_clearAutocompleteTimer h)
  unfold autocompleteEffect
  dsimp only
  split
  · exact timerInv_frame hc rfl rfl rfl rfl
  · rename_i hlong
    have hq : 2 ≤ jsLength (jsTrim (clearAutocompleteTimer (clearAutocompleteTimer s)).searchQuery) := by
      by_contra hlt
      exact hlong (Or.inr (by omega))
    generalize clearAutocompleteTimer (clearAutocompleteTimer s) = c at hc hno hq ⊢
    constructor
    · intro id hid
      simp only [setTimeout, Option.some.injEq] at hid
      simp only [setTimeout]
      omega
    · intro t ht
      simp only [setTimeout, List.mem_append, List.mem_singleton] at ht
      simp only [setTimeout]
      rcases ht with ht | ht
      · have := hc.id_lt t ht
        omega
      · subst ht
        simp
    · intro t ht hl
      simp only [setTimeout, List.mem_append, List.mem_singleton] at ht
      rcases ht with ht | ht
      · rw [hno t ht] at hl
        cases hl
      · subst ht
        rfl
    · have hnil : c.timers.filter Timer.isLookup = [] := by
        rw [List.filter_eq_nil_iff]
        intro t ht
        rw [hno t ht]
        simp
      simp [lookupTimers, setTimeout, List.filter_append, hnil, List.filter_cons]
      split <;> simp
    · intro t ht q hq1
      simp only [setTimeout, List.mem_append, List.mem_singleton] at ht
      rcases ht with ht | ht
      · exact hc.timer_query t ht q hq1
      · subst ht
        simp only [TimerTask.lookup.injEq] at hq1
        rw [← hq1]
        exact hq
    · exact hc.pending_query

theorem timerInv_handleSuggestionClick {s : State} (h : TimerInv s) (sg : Suggestion) :
    TimerInv (handleSuggestionClick sg s) := by
  constructor
  · intro id hid
    have := h.ref_lt id hid
    simp only [handleSuggestionClick, setTimeout]
    omega
  · intro t ht
    simp only [handleSuggestionClick, setTimeout, List.mem_append,
      List.mem_singleton] at ht
    simp only [handleSuggestionClick, setTimeout]
    rcases ht with ht | ht
    · have := h.id_lt t ht
      omega
    · subst ht
      simp
  · intro t ht hl
    simp only [handleSuggestionClick, setTimeout, List.mem_append,
      List.mem_singleton] at ht
    rcases ht with ht | ht
    · exact h.lookup_ref t ht hl
    · subst ht
      cases hl
  · have := h.lookup_le_one
    simpa [lookupTimers, handleSuggestionClick, setTimeout, List.filter_append,
      List.filter_cons, Timer.isLookup] using this
  · intro t ht q hq
    simp only [handleSuggestionClick, setTimeout, List.mem_append,
      List.mem_singleton] at ht
    rcases ht with ht | ht
    · exact h.timer_query t ht q hq
    · subst ht
      cases hq
  · exact h.pending_query

theorem timerInv_runEffects {s : State} (h : TimerInv s) (before : State) :
    TimerInv (runEffects before s) := by
  unfold runEffects
  dsimp only
  split
  · split
    · exact timerInv_autocompleteEffect (timerInv_loadEvents h _)
    · exact timerInv_loadEvents h _
  · split
    · exact timerInv_autocompleteEffect h
    · exact h

theorem timerInv_fireTimer {s : State} (h : TimerInv s) (t : Timer)
    (ht : ∀ q, t.task = .lookup q → 2 ≤ jsLength q) : TimerInv (fireTimer s t) := by
  unfold fireTimer
  split
  · rename_i q hq
    unfold autocompleteLookup
    apply timerInv_fetchCalls h
    intro q1 hq1
    cases hq1
    exact ht q hq
  · exact timerInv_handleSearch h

theorem timerInv_foldl_fireTimer (due : List Timer) : ∀ {s : State}, TimerInv s →
    (∀ t ∈ due, ∀ q, t.task = .lookup q → 2 ≤ jsLength q) →
    TimerInv (due.foldl fireTimer s) := by
  induction due with
  | nil => intro s h _; exact h
  | cons t ts ih =>
    intro s h hq
    exact ih (timerInv_fireTimer h t (hq t (List.mem_cons_self _ _)))
      (fun u hu => hq u (List.mem_cons_of_mem _ hu))

theorem lookupTimers_map_aged (ts : List Timer) :
    (ts.map Timer.aged).filter Timer.isLookup = (ts.filter Timer.isLookup).map Timer.aged := by
  induction ts with
  | nil => rfl
  | cons t ts ih =>
    have : t.aged.isLookup = t.isLookup := rfl
    simp only [List.map_cons, List.filter_cons, this]
    split <;> simp [ih]

theorem timerInv_tick {s : State} (h : TimerInv s) : TimerInv (tick s) := by
  unfold tick
  apply timerInv_foldl_fireTimer
  · constructor
    · exact h.ref_lt
    · intro t ht
      simp only [keptTimers, List.mem_filter, List.mem_map] at ht
      obtain ⟨⟨u, hu, rfl⟩, _⟩ := ht
      exact h.id_lt u hu
    · intro t ht hl
      simp only [keptTimers, List.mem_filter, List.mem_map] at ht
      obtain ⟨⟨u, hu, rfl⟩, _⟩ := ht
      exact h.lookup_ref u hu hl
    · have h1 := filter_isLookup_length_le (fun t => t.remaining != 0) (s.timers.map Timer.aged)
      have h2 := h.lookup_le_one
      simp only [lookupTimers] at h2
      simp only [lookupTimers, keptTimers]
      rw [lookupTimers_map_aged, List.length_map] at h1
      omega
    · intro t ht q hq
      simp only [keptTimers, List.mem_filter, List.mem_map] at ht
      obtain ⟨⟨u, hu, rfl⟩, _⟩ := ht
      exact h.timer_query u hu q hq
    · exact h.pending_query
  · intro t ht q hq
    simp only [dueTimers, List.mem_filter, List.mem_map] at ht
    obtain ⟨⟨u, hu, rfl⟩, _⟩ := ht
    exact h.timer_query u hu q hq

theorem deliver_fields (p : Pending) (r : Reply) (s : State) :
    (deliver p r s).timers = s.timers ∧
    (deliver p r s).autocompleteTimeoutRef = s.autocompleteTimeoutRef ∧
    (deliver p r s).nextTimerId = s.nextTimerId ∧
    (deliver p r s).pending = s.pending ∧
    (deliver p r s).searchQuery = s.searchQuery ∧
    (deliver p r s).activeCategory = s.activeCategory ∧
    (deliver p r s).log = s.log := by
  cases p <;> cases r <;>
    simp only [deliver, autocompleteReply, autocompleteCatch, handleSearchReply, loadEventsReply,
      searchReply, loadSuggestionsReply, fetchMarketDetailsReply] <;>
    (repeat' split) <;> simp

theorem timerInv_erase {s : State} (h : TimerInv s) (index : Nat) :
    TimerInv { s with pending := s.pending.eraseIdx index } where
  ref_lt := h.ref_lt
  id_lt := h.id_lt
  lookup_ref := h.lookup_ref
  lookup_le_one := h.lookup_le_one
  timer_query := h.timer_query
  pending_query := fun q hq => h.pending_query q ((List.eraseIdx_sublist _ _).subset hq)

theorem timerInv_deliver {s : State} (h : TimerInv s) (p : Pending) (r : Reply) :
    TimerInv (deliver p r s) := by
  obtain ⟨h1, h2, h3, h4, _⟩ := deliver_fields p r s
  exact timerInv_frame h h1 h2 h3 h4

theorem timerInv_commit {s : State} (_h : TimerInv s) (handler : State → State)
    (hh : TimerInv (handler s)) : TimerInv (commit handler s) :=
  timerInv_runEffects hh s

theorem timerInv_handleAutocompleteSelect {s : State} (h : TimerInv s)
    (sg : Option Suggestion) : TimerInv (handleAutocompleteSelect sg s) := by
  cases sg with
  | none => exact h
  | some v => exact timerInv_handleSuggestionClick h v

theorem timerInv_handleKeyDown {s : State} (h : TimerInv s) (key : Key) :
    TimerInv (handleKeyDown key s).1 := by
  unfold handleKeyDown
  split
  · exact h
  · cases key <;> dsimp only
    · exact timerInv_frame h rfl rfl rfl rfl
    · exact timerInv_frame h rfl rfl rfl rfl
    · split
      · exact timerInv_handleAutocompleteSelect h _
      · exact timerInv_frame h rfl rfl rfl rfl
    · exact timerInv_frame h rfl rfl rfl rfl
    · exact h

theorem timerInv_step {s : State} (h : TimerInv s) (i : Input) : TimerInv (step s i) := by
  cases i with
  | change value =>
    simp only [step]
    split
    · exact h
    · exact timerInv_commit h _ (timerInv_frame h rfl rfl rfl rfl)
  | focus =>
    simp only [step, handleFocus]
    split
    · exact timerInv_frame h rfl rfl rfl rfl
    · exact h
  | keyDown key =>
    simp only [step]
    have h1 := timerInv_runEffects (timerInv_handleKeyDown h key) s
    split
    · exact timerInv_userSubmit h1
    · exact h1
  | hover index =>
    simp only [step]
    split
    · exact timerInv_frame h rfl rfl rfl rfl
    · exact h
  | clickItem index =>
    simp only [step]
    split
    · split
      · exact timerInv_commit h _ (timerInv_handleAutocompleteSelect h _)
      · exact h
    · exact h
  | pressOutside => exact timerInv_frame h rfl rfl rfl rfl
  | clickClear =>
    simp only [step]
    split
    · exact h
    · apply timerInv_commit h
      have h2 : TimerInv (clearSearch s) := by
        unfold clearSearch
        apply timerInv_loadEvents
        exact timerInv_frame h rfl rfl rfl rfl
      exact timerInv_frame h2 rfl rfl rfl rfl
  | clickCategory category =>
    simp only [step]
    split
    · exact timerInv_commit h _ (timerInv_frame h rfl rfl rfl rfl)
    · exact h
  | clickChip index =>
    simp only [step]
    split
    · split
      · exact timerInv_commit h _ (timerInv_handleSuggestionClick h _)
      · exact h
    · exact h
  | submit => exact timerInv_userSubmit h
  | selectMarket market =>
    simp only [step]
    split
    · exact timerInv_handleSelectMarket h market
    · exact h
  | closeDetails => exact timerInv_frame h rfl rfl rfl rfl
  | tick => exact timerInv_tick h
  | reply index r =>
    simp only [step]
    split
    · exact timerInv_deliver (timerInv_erase h index) _ r
    · exact h

theorem timerInv_initialState : TimerInv initialState where
  ref_lt := by intro id hid; cases hid
  id_lt := by intro t ht; cases ht
  lookup_ref := by intro t ht; cases ht
  lookup_le_one := by decide
  timer_query := by intro t ht; cases ht
  pending_query := by intro q hq; cases hq

theorem timerInv_mounted : TimerInv mounted := by
  unfold mounted mount
  exact timerInv_autocompleteEffect
    (timerInv_loadEvents (timerInv_loadEvents (timerInv_loadSuggestions timerInv_initialState) _) _)

theorem timerInv_of_reachable {s : State} (h : Reachable s) : TimerInv s := by
  induction h with
  | init => exact timerInv_mounted
  | step s i _ ih => exact timerInv_step ih i

theorem timerInv_run (inputs : List Input) : ∀ {s : State}, TimerInv s →
    TimerInv (run s inputs) := by
  induction inputs with
  | nil => intro s h; exact h
  | cons x xs ih => intro s h; exact ih (timerInv_step h x)

/-! ## Time -/

theorem fireTimer_fields (s : State) (t : Timer) :
    (fireTimer s t).timers = s.timers ∧
    (fireTimer s t).autocompleteTimeoutRef = s.autocompleteTimeoutRef ∧
    (fireTimer s t).nextTimerId = s.nextTimerId ∧
    (fireTimer s t).searchQuery = s.searchQuery ∧
    (fireTimer s t).activeCategory = s.activeCategory ∧
    (fireTimer s t).autocompleteResults = s.autocompleteResults ∧
    (fireTimer s t).showAutocomplete = s.showAutocomplete ∧
    (fireTimer s t).selectedIndex = s.selectedIndex ∧
    (fireTimer s t).log = s.log ++ [timerCall s t] := by
  unfold fireTimer timerCall
  split <;> simp [autocompleteLookup, handleSearch, fetchCalls, searchParams]

theorem timerCall_congr (s s1 : State) (t : Timer) (hq : s1.searchQuery = s.searchQuery)
    (hc : s1.activeCategory = s.activeCategory) : timerCall s1 t = timerCall s t := by
  unfold timerCall searchParams
  rw [hq, hc]

theorem foldl_fireTimer_fields (due : List Timer) : ∀ (s : State),
    (due.foldl fireTimer s).timers = s.timers ∧
    (due.foldl fireTimer s).autocompleteTimeoutRef = s.autocompleteTimeoutRef ∧
    (due.foldl fireTimer s).nextTimerId = s.nextTimerId ∧
    (due.foldl fireTimer s).searchQuery = s.searchQuery ∧
    (due.foldl fireTimer s).activeCategory = s.activeCategory ∧
    (due.foldl fireTimer s).autocompleteResults = s.autocompleteResults ∧
    (due.foldl fireTimer s).showAutocomplete = s.showAutocomplete ∧
    (due.foldl fireTimer s).selectedIndex = s.selectedIndex ∧
    (due.foldl fireTimer s).log = s.log ++ due.map (timerCall s) := by
  induction due with
  | nil => intro s; simp
  | cons t ts ih =>
    intro s
    obtain ⟨a1, a2, a3, a4, a5, a6, a7, a8, a9⟩ := ih (fireTimer s t)
    obtain ⟨b1, b2, b3, b4, b5, b6, b7, b8, b9⟩ := fireTimer_fields s t
    simp only [List.foldl_cons, List.map_cons]
    refine ⟨a1.trans b1, a2.trans b2, a3.trans b3, a4.trans b4, a5.trans b5, a6.trans b6,
      a7.trans b7, a8.trans b8, ?_⟩
    rw [a9, b9, List.append_assoc, List.singleton_append]
    congr 2
    apply List.map_congr_left
    intro u _
    exact timerCall_congr s _ u b4 b5

theorem tick_fields (s : State) :
    (tick s).timers = keptTimers s ∧
    (tick s).autocompleteTimeoutRef = s.autocompleteTimeoutRef ∧
    (tick s).nextTimerId = s.nextTimerId ∧
    (tick s).searchQuery = s.searchQuery ∧
    (tick s).activeCategory = s.activeCategory ∧
    (tick s).autocompleteResults = s.autocompleteResults ∧
    (tick s).showAutocomplete = s.showAutocomplete ∧
    (tick s).selectedIndex = s.selectedIndex ∧
    (tick s).log = s.log ++ (dueTimers s).map (timerCall s) := by
  obtain ⟨a1, a2, a3, a4, a5, a6, a7, a8, a9⟩ :=
    foldl_fireTimer_fields (dueTimers s) { s with timers := keptTimers s }
  refine ⟨a1, a2, a3, a4, a5, a6, a7, a8, ?_⟩
  unfold tick
  rw [a9]
  congr 1

theorem lookupTimers_tick (s : State) :
    lookupTimers (tick s) =
      ((lookupTimers s).map Timer.aged).filter (fun t => t.remaining != 0) := by
  unfold lookupTimers
  rw [(tick_fields s).1, keptTimers, List.filter_filter, ← lookupTimers_map_aged,
    List.filter_filter]
  apply List.filter_congr
  intro t _
  exact Bool.and_comm _ _

theorem lookupCalls_tick (s : State) :
    lookupCalls (tick s) = lookupCalls s ++
      ((((lookupTimers s).map Timer.aged).filter (fun t => t.remaining == 0)).map
        (timerCall s)) := by
  unfold lookupCalls
  rw [(tick_fields s).2.2.2.2.2.2.2.2, List.filter_append]
  congr 1
  unfold dueTimers lookupTimers
  rw [← lookupTimers_map_aged]
  generalize s.timers.map Timer.aged = ts
  induction ts with
  | nil => rfl
  | cons t ts ih =>
    simp only [List.filter_cons]
    cases hr : (t.remaining == 0) <;> cases hl : t.isLookup <;>
      simp only [hr, hl, if_true, if_false, Bool.false_eq_true, List.map_cons, List.filter_cons,
        ih]
    · have : (timerCall s t).isAutocomplete = false := by
        unfold Timer.isLookup at hl
        unfold timerCall
        split at hl
        · cases hl
        · rfl
      simp [this]
    · have : (timerCall s t).isAutocomplete = true := by
        unfold Timer.isLookup at hl
        unfold timerCall
        split at hl
        · rfl
        · cases hl
      simp [this]

/-! ## Debounce (C2) -/

theorem autocompleteEffect_fields {s : State} (h : TimerInv s) :
    (autocompleteEffect s).searchQuery = s.searchQuery ∧
    (autocompleteEffect s).activeCategory = s.activeCategory ∧
    (autocompleteEffect s).log = s.log ∧
    (autocompleteEffect s).pending = s.pending ∧
    lookupTimers (autocompleteEffect s) =
      (if 2 ≤ jsLength (jsTrim s.searchQuery) then
        [{ id := s.nextTimerId, remaining := 300, task := .lookup (jsTrim s.searchQuery) }]
       else []) := by
  have hno := clearAutocompleteTimer_no_lookup (timerInv_clearAutocompleteTimer h)
  obtain ⟨_, c2, c3, c4, c5, c6, _⟩ := clearAutocompleteTimer_fields s
  obtain ⟨_, d2, d3, d4, d5, d6, _⟩ := clearAutocompleteTimer_fields (clearAutocompleteTimer s)
  have hnil : (clearAutocompleteTimer (clearAutocompleteTimer s)).timers.filter Timer.isLookup
      = [] := by
    rw [List.filter_eq_nil_iff]
    intro t ht
    rw [hno t ht]
    simp
  have hq := d3.trans c3
  have hn := d2.trans c2
  unfold autocompleteEffect
  dsimp only
  rw [hq]
  by_cases hlen : 2 ≤ jsLength (jsTrim s.searchQuery)
  · have hne : jsTrim s.searchQuery ≠ "" := by
      intro h0
      rw [h0, jsLength_empty] at hlen
      omega
    have hcond : ¬ (jsTrim s.searchQuery = "" ∨ jsLength (jsTrim s.searchQuery) < 2) := by
      rintro (h1 | h1)
      · exact hne h1
      · omega
    rw [if_neg hcond, if_pos hlen]
    refine ⟨hq, d4.trans c4, d5.trans c5, d6.trans c6, ?_⟩
    simp [lookupTimers, setTimeout, List.filter_append, hnil, Timer.isLookup, hn, hq]
  · have hcond : jsTrim s.searchQuery = "" ∨ jsLength (jsTrim s.searchQuery) < 2 :=
      Or.inr (by omega)
    rw [if_pos hcond, if_neg hlen]
    exact ⟨rfl, d4.trans c4, d5.trans c5, d6.trans c6, hnil⟩

theorem step_change_fields {s : State} (h : TimerInv s) (v : String)
    (hv : v ≠ s.searchQuery) :
    (step s (.change v)).searchQuery = v ∧
    (step s (.change v)).activeCategory = s.activeCategory ∧
    (step s (.change v)).log = s.log ∧
    lookupTimers (step s (.change v)) =
      (if 2 ≤ jsLength (jsTrim v) then
        [{ id := s.nextTimerId, remaining := 300, task := .lookup (jsTrim v) }]
       else []) := by
  have hi : TimerInv (handleChange v s) := timerInv_frame h rfl rfl rfl rfl
  obtain ⟨e1, e2, e3, _, e5⟩ := autocompleteEffect_fields hi
  have hstep : step s (.change v) = autocompleteEffect (handleChange v s) := by
    simp [step, hv, commit, runEffects, handleChange]
  rw [hstep]
  exact ⟨e1, e2, e3, e5⟩

theorem run_replicate_succ (s : State) (n : Nat) (i : Input) :
    run s (List.replicate (n + 1) i) = run (step s i) (List.replicate n i) := rfl

theorem ticks_fields (n : Nat) : ∀ (s : State),
    (run s (List.replicate n .tick)).searchQuery = s.searchQuery ∧
    (run s (List.replicate n .tick)).activeCategory = s.activeCategory := by
  induction n with
  | zero => intro s; exact ⟨rfl, rfl⟩
  | succ n ih =>
    intro s
    rw [run_replicate_succ]
    obtain ⟨a, b⟩ := ih (step s .tick)
    obtain ⟨_, _, _, t4, t5, _⟩ := tick_fields s
    exact ⟨a.trans t4, b.trans t5⟩

theorem ticks_idle (n : Nat) : ∀ (s : State), lookupTimers s = [] →
    lookupTimers (run s (List.replicate n .tick)) = [] ∧
    lookupCalls (run s (List.replicate n .tick)) = lookupCalls s := by
  induction n with
  | zero => intro s h; exact ⟨h, rfl⟩
  | succ n ih =>
    intro s h
    rw [run_replicate_succ]
    have h1 : lookupTimers (step s .tick) = [] := by
      show lookupTimers (tick s) = []
      rw [lookupTimers_tick, h]
      rfl
    have h2 : lookupCalls (step s .tick) = lookupCalls s := by
      show lookupCalls (tick s) = lookupCalls s
      rw [lookupCalls_tick, h]
      simp
    obtain ⟨a, b⟩ := ih (step s .tick) h1
    exact ⟨a, b.trans h2⟩

theorem ticks_armed (n : Nat) : ∀ (s : State) (id m : Nat) (task : TimerTask),
    lookupTimers s = [{ id := id, remaining := n + m + 1, task := task }] →
    lookupTimers (run s (List.replicate n .tick))
      = [{ id := id, remaining := m + 1, task := task }] ∧
    lookupCalls (run s (List.replicate n .tick)) = lookupCalls s := by
  induction n with
  | zero =>
    intro s id m task h
    refine ⟨?_, rfl⟩
    simpa using h
  | succ n ih =>
    intro s id m task h
    rw [run_replicate_succ]
    have h1 : lookupTimers (step s .tick)
        = [{ id := id, remaining := n + m + 1, task := task }] := by
      show lookupTimers (tick s) = _
      rw [lookupTimers_tick, h]
      have : n + 1 + m + 1 - 1 = n + m + 1 := by omega
      simp [Timer.aged, this]
    have h2 : lookupCalls (step s .tick) = lookupCalls s := by
      show lookupCalls (tick s) = lookupCalls s
      rw [lookupCalls_tick, h]
      have : n + 1 + m + 1 - 1 = n + m + 1 := by omega
      simp [Timer.aged, this]
    obtain ⟨a, b⟩ := ih (step s .tick) id m task h1
    exact ⟨a, b.trans h2⟩

theorem tick_fires (s : State) (id : Nat) (q : String)
    (h : lookupTimers s = [{ id := id, remaining := 1, task := .lookup q }]) :
    lookupTimers (step s .tick) = [] ∧
    lookupCalls (step s .tick) = lookupCalls s ++
      [Call.autocomplete { query := some q, category := none, limit := 8 }] := by
  constructor
  · show lookupTimers (tick s) = []
    rw [lookupTimers_tick, h]
    simp [Timer.aged]
  · show lookupCalls (tick s) = _
    rw [lookupCalls_tick, h]
    simp [Timer.aged, timerCall]

/-- A keystroke that changes the query, followed by fewer than 300 quiet time
units, issues no lookup. -/
theorem keystroke_gap_quiet {s : State} (h : TimerInv s) (v : String) (g : Nat)
    (hv : v ≠ s.searchQuery) (hg : g < 300) :
    (run s (.change v :: List.replicate g .tick)).searchQuery = v ∧
    lookupCalls (run s (.change v :: List.replicate g .tick)) = lookupCalls s := by
  obtain ⟨e1, _, e3, e4⟩ := step_change_fields h v hv
  rw [run_cons]
  have hq := (ticks_fields g (step s (.change v))).1
  have hlog : lookupCalls (step s (.change v)) = lookupCalls s := by
    unfold lookupCalls
    rw [e3]
  refine ⟨hq.trans e1, ?_⟩
  by_cases hlen : 2 ≤ jsLength (jsTrim v)
  · rw [if_pos hlen] at e4
    have h300 : 300 = g + (299 - g) + 1 := by omega
    rw [h300] at e4
    exact ((ticks_armed g _ _ _ _ e4).2).trans hlog
  · rw [if_neg hlen] at e4
    exact ((ticks_idle g _ e4).2).trans hlog

theorem burst_append (xs ys : List (String × Nat)) :
    burst (xs ++ ys) = burst xs ++ burst ys := by
  induction xs with
  | nil => rfl
  | cons x xs ih =>
    obtain ⟨v, g⟩ := x
    simp [burst, ih]

theorem burst_quiet (ks : List (String × Nat)) : ∀ {s : State}, TimerInv s →
    (∀ k ∈ ks, k.2 < 300) → List.Chain (fun a b => a ≠ b) s.searchQuery (ks.map Prod.fst) →
    (run s (burst ks)).searchQuery = (ks.map Prod.fst).getLastD s.searchQuery ∧
    lookupCalls (run s (burst ks)) = lookupCalls s := by
  induction ks with
  | nil => intro s _ _ _; exact ⟨rfl, rfl⟩
  | cons k ks ih =>
    intro s h hg hc
    obtain ⟨v, g⟩ := k
    simp only [List.map_cons, List.chain_cons] at hc
    have hk := keystroke_gap_quiet h v g (Ne.symm hc.1) (hg (v, g) (List.mem_cons_self _ _))
    have hrun : run s (burst ((v, g) :: ks))
        = run (run s (.change v :: List.replicate g .tick)) (burst ks) := by
      show run s (.change v :: (List.replicate g .tick ++ burst ks)) = _
      rw [← List.cons_append, run_append]
    have hi : TimerInv (run s (.change v :: List.replicate g .tick)) := timerInv_run _ h
    have := ih hi (fun k hk => hg k (List.mem_cons_of_mem _ hk)) (by rw [hk.1]; exact hc.2)
    rw [hrun]
    refine ⟨?_, this.2.trans hk.2⟩
    rw [this.1, hk.1]
    cases ks with
    | nil => rfl
    | cons k2 ks2 => simp [List.getLastD]

theorem chain_append_singleton {α : Type} (R : α → α → Prop) (l : List α) : ∀ (a v : α),
    List.Chain R a (l ++ [v]) → List.Chain R a l ∧ R (l.getLastD a) v := by
  induction l with
  | nil =>
    intro a v h
    simp only [List.nil_append, List.chain_cons] at h
    exact ⟨List.Chain.nil, h.1⟩
  | cons b l ih =>
    intro a v h
    simp only [List.cons_append, List.chain_cons] at h
    obtain ⟨h1, h2⟩ := ih b v h.2
    refine ⟨List.Chain.cons h.1 h1, ?_⟩
    cases l with
    | nil => exact h2
    | cons c l2 => simpa [List.getLastD] using h2

theorem armed_then_fire (n : Nat) (s : State) (id : Nat) (q : String)
    (h : lookupTimers s = [{ id := id, remaining := n + 1, task := .lookup q }]) :
    lookupCalls (run s (List.replicate (n + 1) .tick)) = lookupCalls s ++
      [Call.autocomplete { query := some q, category := none, limit := 8 }] := by
  rw [List.replicate_succ', run_append]
  obtain ⟨a1, a2⟩ := ticks_armed n s id 0 (.lookup q) h
  obtain ⟨_, b2⟩ := tick_fires _ _ _ a1
  show lookupCalls (step _ .tick) = _
  rw [b2, a2]

/-- After a keystroke that changes the query to one of trimmed length at least
2 and 300 quiet time units, exactly one lookup has been issued, for the
trimmed query with limit 8 and no category. -/
theorem keystroke_then_quiet {s : State} (h : TimerInv s) (v : String)
    (hv : v ≠ s.searchQuery) (hlen : 2 ≤ jsLength (jsTrim v)) :
    lookupCalls (run s (.change v :: List.replicate 300 .tick)) = lookupCalls s ++
      [Call.autocomplete { query := some (jsTrim v), category := none, limit := 8 }] := by
  obtain ⟨_, _, e3, e4⟩ := step_change_fields h v hv
  rw [if_pos hlen] at e4
  have hlog : lookupCalls (step s (.change v)) = lookupCalls s := by
    unfold lookupCalls
    rw [e3]
  have h300 : (300 : Nat) = 299 + 1 := by omega
  rw [h300] at e4
  rw [run_cons, h300, armed_then_fire _ _ _ _ e4, hlog]

/-- C2: from a reachable state, a burst of query-changing keystrokes, each
less than 300 time units after the previous one, ending in a query of trimmed
length at least 2 and followed by 300 quiet time units, issues exactly one
autocomplete lookup, for the trimmed final query with limit 8 and no category;
at every point of the run at most one debounce timer is armed. -/
theorem debounce_single_lookup (s : State) (ks : List (String × Nat)) (v : String)
    (hs : Reachable s) (hgap : ∀ k ∈ ks, k.2 < 300)
    (hchange : List.Chain (fun a b => a ≠ b) s.searchQuery (ks.map Prod.fst ++ [v]))
    (hlen : 2 ≤ jsLength (jsTrim v)) :
    lookupCalls (run s (burst (ks ++ [(v, 300)]))) = lookupCalls s ++
      [Call.autocomplete { query := some (jsTrim v), category := none, limit := 8 }] ∧
    ∀ inputs, inputs <+: burst (ks ++ [(v, 300)]) → (lookupTimers (run s inputs)).length ≤ 1 := by
  have hi := timerInv_of_reachable hs
  obtain ⟨hc1, hc2⟩ := chain_append_singleton _ _ _ _ hchange
  obtain ⟨q1, q2⟩ := burst_quiet ks hi hgap hc1
  constructor
  · have hb : burst [(v, 300)] = .change v :: List.replicate 300 .tick := by
      show _ :: (_ ++ []) = _
      rw [List.append_nil]
    rw [burst_append, run_append, hb,
      keystroke_then_quiet (timerInv_run _ hi) v (by rw [q1]; exact Ne.symm hc2) hlen, q2]
  · intro inputs _
    exact (timerInv_run inputs hi).lookup_le_one

/-- Witness for the debounce: the queries "a", "ab", "abc" typed
into the mounted component 10 and 50 time units apart. -/
theorem debounce_single_lookup_witness :
    lookupCalls (run mounted (burst ([("a", 10), ("ab", 50)] ++ [("abc", 300)]))) =
      lookupCalls mounted ++
        [Call.autocomplete { query := some (jsTrim "abc"), category := none, limit := 8 }] :=
  (debounce_single_lookup mounted [("a", 10), ("ab", 50)] "abc" Reachable.init
    (by decide)
    (List.Chain.cons (by decide) (List.Chain.cons (by decide)
      (List.Chain.cons (by decide) List.Chain.nil)))
    (by decide)).1

/-! ## Suggestion acceptance (C6) -/

theorem timerCall_aged (s : State) (t : Timer) : timerCall s t.aged = timerCall s t := rfl

theorem ticks_log (n : Nat) : ∀ (s : State), ∃ added,
    (run s (List.replicate n .tick)).log = s.log ++ added ∧
    (∀ c ∈ added, ∃ t, c = timerCall s t) ∧
    (∀ t ∈ s.timers, 1 ≤ t.remaining → t.remaining ≤ n → timerCall s t ∈ added) := by
  induction n with
  | zero =>
    intro s
    refine ⟨[], by simp [run], by simp, ?_⟩
    intro t _ h1 h2
    omega
  | succ n ih =>
    intro s
    obtain ⟨added, g1, g2, g3⟩ := ih (tick s)
    obtain ⟨t1, _, _, t4, t5, _, _, _, t9⟩ := tick_fields s
    refine ⟨(dueTimers s).map (timerCall s) ++ added, ?_, ?_, ?_⟩
    · rw [run_replicate_succ]
      show (run (tick s) _).log = _
      rw [g1, t9, List.append_assoc]
    · intro c hc
      rcases List.mem_append.1 hc with hc | hc
      · obtain ⟨t, _, rfl⟩ := List.mem_map.1 hc
        exact ⟨t, rfl⟩
      · obtain ⟨t, rfl⟩ := g2 c hc
        exact ⟨t, timerCall_congr s (tick s) t t4 t5⟩
    · intro t ht h1 h2
      apply List.mem_append.2
      by_cases hr : t.remaining = 1
      · left
        rw [← timerCall_aged]
        apply List.mem_map_of_mem
        simp only [dueTimers, List.mem_filter, List.mem_map, beq_iff_eq]
        exact ⟨⟨t, ht, rfl⟩, by simp [Timer.aged, hr]⟩
      · right
        have hk : t.aged ∈ (tick s).timers := by
          rw [t1]
          simp only [keptTimers, List.mem_filter, List.mem_map, bne_iff_ne]
          refine ⟨⟨t, ht, rfl⟩, ?_⟩
          simp only [Timer.aged]
          omega
        have := g3 t.aged hk (by simp only [Timer.aged]; omega)
          (by simp only [Timer.aged]; omega)
        rw [timerCall_congr s (tick s) _ t4 t5, timerCall_aged] at this
        exact this

theorem autocompleteEffect_hidden (x : State) (hshow : x.showAutocomplete = false)
    (hidx : x.selectedIndex = -1) :
    (autocompleteEffect x).showAutocomplete = false ∧
    (autocompleteEffect x).selectedIndex = -1 := by
  obtain ⟨_, _, _, _, _, _, _, c8, c9⟩ := clearAutocompleteTimer_fields x
  obtain ⟨_, _, _, _, _, _, _, d8, d9⟩ := clearAutocompleteTimer_fields (clearAutocompleteTimer x)
  unfold autocompleteEffect
  dsimp only
  split
  · exact ⟨rfl, rfl⟩
  · exact ⟨(d8.trans c8).trans hshow, (d9.trans c9).trans hidx⟩

theorem autocompleteEffect_mem (x : State) (t : Timer) (ht : t ∈ x.timers)
    (hne : x.autocompleteTimeoutRef ≠ some t.id) : t ∈ (autocompleteEffect x).timers := by
  have h1 := clearAutocompleteTimer_mem x t ht hne
  have hr := (clearAutocompleteTimer_fields x).1
  have h2 := clearAutocompleteTimer_mem (clearAutocompleteTimer x) t h1 (by rw [hr]; exact hne)
  unfold autocompleteEffect
  dsimp only
  split
  · exact h2
  · simp only [setTimeout, List.mem_append]
    exact Or.inl h2

/-- What the acceptance of a suggestion leaves behind, effects included. -/
theorem accept_fields {s : State} (h : TimerInv s) (sg : Suggestion) :
    (commit (handleSuggestionClick sg) s).searchQuery = sg.title ∧
    (commit (handleSuggestionClick sg) s).activeCategory = "All" ∧
    (commit (handleSuggestionClick sg) s).showAutocomplete = false ∧
    (commit (handleSuggestionClick sg) s).selectedIndex = -1 ∧
    ({ id := s.nextTimerId, remaining := 100, task := .submit } : Timer)
      ∈ (commit (handleSuggestionClick sg) s).timers := by
  have hmem : ({ id := s.nextTimerId, remaining := 100, task := .submit } : Timer)
      ∈ (handleSuggestionClick sg s).timers := by
    simp [handleSuggestionClick, setTimeout]
  have hne : (handleSuggestionClick sg s).autocompleteTimeoutRef ≠ some s.nextTimerId := by
    intro hEq
    have := h.ref_lt s.nextTimerId hEq
    omega
  unfold commit runEffects
  dsimp only
  split
  · have hi := timerInv_loadEvents (timerInv_handleSuggestionClick h sg)
      (handleSuggestionClick sg s).activeCategory
    split
    · obtain ⟨e1, e2, _⟩ := autocompleteEffect_fields hi
      obtain ⟨e3, e4⟩ := autocompleteEffect_hidden
        (loadEvents (handleSuggestionClick sg s).activeCategory (handleSuggestionClick sg s))
        rfl rfl
      exact ⟨e1, e2, e3, e4, autocompleteEffect_mem _ _ hmem hne⟩
    · exact ⟨rfl, rfl, rfl, rfl, hmem⟩
  · split
    · obtain ⟨e1, e2, _⟩ := autocompleteEffect_fields (timerInv_handleSuggestionClick h sg)
      obtain ⟨e3, e4⟩ := autocompleteEffect_hidden (handleSuggestionClick sg s) rfl rfl
      exact ⟨e1, e2, e3, e4, autocompleteEffect_mem _ _ hmem hne⟩
    · exact ⟨rfl, rfl, rfl, rfl, hmem⟩

theorem step_clickItem {s : State} (i : Nat) (sg : Suggestion)
    (hvis : dropdownRendered s = true) (hi : s.autocompleteResults.get? i = some sg) :
    step s (.clickItem i) = commit (handleSuggestionClick sg) s := by
  simp only [step, hvis, if_true, hi]
  rfl

theorem step_enter_highlighted {s : State} (i : Nat) (sg : Suggestion)
    (hvis : dropdownRendered s = true) (hi : s.autocompleteResults.get? i = some sg)
    (hidx : s.selectedIndex = (i : Int)) :
    step s (.keyDown .enter) = commit (handleSuggestionClick sg) s := by
  have hlt : i < s.autocompleteResults.length := by
    rcases Nat.lt_or_ge i s.autocompleteResults.length with hlt | hge
    · exact hlt
    · rw [List.get?_eq_none.2 hge] at hi
      cases hi
  simp only [dropdownRendered, Bool.and_eq_true, decide_eq_true_eq] at hvis
  have hlen : (s.autocompleteResults.length == 0) = false := by
    have : s.autocompleteResults.length ≠ 0 := by omega
    simpa using this
  have hcond : s.selectedIndex ≥ 0 ∧ s.selectedIndex < (s.autocompleteResults.length : Int) := by
    rw [hidx]
    omega
  have hget : s.autocompleteResults.get? s.selectedIndex.toNat = some sg := by
    rw [hidx]
    simpa using hi
  simp only [step, handleKeyDown, hvis.1, hlen, Bool.not_true, Bool.or_self, Bool.false_eq_true,
    if_false, hcond, and_self, if_true, hget, handleAutocompleteSelect, and_false]
  rfl

/-! ## Visibility (C3) -/

theorem queryInv_frame {s s1 : State} (h : QueryInv s)
    (hq : s1.searchQuery = s.searchQuery)
    (hshow : s1.showAutocomplete = true → s.showAutocomplete = true)
    (hres : s1.autocompleteResults ≠ [] → s.autocompleteResults ≠ []) : QueryInv s1 := by
  unfold QueryInv
  rw [hq]
  exact ⟨fun a => h.1 (hshow a), fun a => h.2 (hres a)⟩

theorem queryInv_of_long {s : State} (h : 2 ≤ jsLength (jsTrim s.searchQuery)) : QueryInv s :=
  ⟨fun _ => h, fun _ => h⟩

theorem queryInv_of_hidden {s : State} (hshow : s.showAutocomplete = false)
    (hres : s.autocompleteResults = []) : QueryInv s := by
  constructor
  · intro a
    rw [hshow] at a
    cases a
  · intro a
    exact absurd hres a

theorem queryInv_autocompleteEffect (x : State) : QueryInv (autocompleteEffect x) := by
  obtain ⟨_, _, c3, _⟩ := clearAutocompleteTimer_fields x
  obtain ⟨_, _, d3, _⟩ := clearAutocompleteTimer_fields (clearAutocompleteTimer x)
  unfold autocompleteEffect
  dsimp only
  split
  · exact queryInv_of_hidden rfl rfl
  · rename_i hlong
    apply queryInv_of_long
    by_contra hlt
    exact hlong (Or.inr (by simp only [setTimeout] at hlt; omega))

theorem queryInv_loadEvents {s : State} (h : QueryInv s) (c : String) :
    QueryInv (loadEvents c s) :=
  queryInv_frame h rfl id id

theorem queryInv_handleSearch {s : State} (h : QueryInv s) : QueryInv (handleSearch s) :=
  queryInv_frame h rfl id id

theorem queryInv_userSubmit {s : State} (h : QueryInv s) : QueryInv (userSubmit s) := by
  unfold userSubmit
  split
  · exact h
  · exact queryInv_handleSearch h

theorem queryInv_runEffects (before s : State)
    (h : s.searchQuery = before.searchQuery → QueryInv s) :
    QueryInv (runEffects before s) := by
  unfold runEffects
  dsimp only
  split
  · split
    · exact queryInv_autocompleteEffect _
    · rename_i hq
      exact queryInv_loadEvents (h (by simpa [loadEvents, fetchCalls] using hq)) _
  · split
    · exact queryInv_autocompleteEffect _
    · rename_i hq
      exact h (by simpa using hq)

theorem queryInv_handleSuggestionClick {s : State} (h : QueryInv s) (sg : Suggestion)
    (hq : (handleSuggestionClick sg s).searchQuery = s.searchQuery) :
    QueryInv (handleSuggestionClick sg s) :=
  queryInv_frame h hq (fun a => by cases a) id

theorem queryInv_handleKeyDown {s : State} (h : QueryInv s) (key : Key)
    (hq : (handleKeyDown key s).1.searchQuery = s.searchQuery) :
    QueryInv (handleKeyDown key s).1 := by
  unfold handleKeyDown at hq ⊢
  split
  · exact h
  · rename_i hvis
    rw [if_neg hvis] at hq
    cases key <;> dsimp only at hq ⊢
    · exact queryInv_frame h rfl id id
    · exact queryInv_frame h rfl id id
    · split
      · rename_i hc
        rw [if_pos hc] at hq
        unfold handleAutocompleteSelect at hq ⊢
        split
        · rename_i sg heq
          rw [heq] at hq
          exact queryInv_handleSuggestionClick h _ hq
        · exact h
      · exact queryInv_frame h rfl (fun a => by cases a) id
    · exact queryInv_frame h rfl (fun a => by cases a) id
    · exact h

theorem deliver_other_fields (p : Pending) (r : Reply) (s : State)
    (hp : ∀ q, p ≠ .autocomplete q) :
    (deliver p r s).showAutocomplete = s.showAutocomplete ∧
    (deliver p r s).autocompleteResults = s.autocompleteResults := by
  cases p with
  | autocomplete q => exact absurd rfl (hp q)
  | search =>
    cases r <;> simp only [deliver, handleSearchReply, searchReply] <;> (repeat' split) <;> simp
  | loadEvents =>
    cases r <;> simp only [deliver, loadEventsReply, searchReply] <;> (repeat' split) <;> simp
  | suggestions =>
    cases r <;> simp only [deliver, loadSuggestionsReply] <;> (repeat' split) <;> simp
  | details t =>
    cases r <;> simp only [deliver, fetchMarketDetailsReply] <;> (repeat' split) <;> simp

theorem uniqueSuggestions_nil : uniqueSuggestions [] = [] := rfl

theorem queryInv_autocompleteReply {s : State} (h : QueryInv s) (index : Nat) (q : String)
    (r : Reply) (hp : s.pending.get? index = some (.autocomplete q))
    (hf : lateSuggestions s (.reply index r) = false) :
    QueryInv (deliver (.autocomplete q) r { s with pending := s.pending.eraseIdx index }) := by
  cases r with
  | suggestions res => exact queryInv_frame h rfl id id
  | details m t o => exact queryInv_frame h rfl id id
  | search res =>
    cases res with
    | rejected message => exact queryInv_of_hidden rfl rfl
    | response ok json =>
      cases json with
      | error message => exact queryInv_of_hidden rfl rfl
      | ok data =>
        cases ok with
        | false => exact queryInv_frame h rfl id id
        | true =>
          cases hev : data.events with
          | none =>
            simp only [deliver, autocompleteReply, hev, if_true]
            exact queryInv_frame h rfl id id
          | some events =>
            cases events with
            | nil =>
              simp only [deliver, autocompleteReply, hev, if_true]
              exact queryInv_of_hidden (by simp [uniqueSuggestions_nil]) uniqueSuggestions_nil
            | cons e es =>
              simp only [lateSuggestions, hp, hev, decide_eq_false_iff_not, Nat.not_lt] at hf
              apply queryInv_of_long
              rw [(deliver_fields _ _ _).2.2.2.2.1]
              exact hf

theorem queryInv_step {s : State} (h : QueryInv s) (i : Input)
    (hf : lateSuggestions s i = false) : QueryInv (step s i) := by
  cases i with
  | change value =>
    simp only [step]
    split
    · exact h
    · rename_i hv
      apply queryInv_runEffects
      intro hq
      exact absurd hq hv
  | focus =>
    simp only [step, handleFocus]
    split
    · rename_i hc
      exact queryInv_of_long hc.2
    · exact h
  | keyDown key =>
    simp only [step]
    have h1 : QueryInv (runEffects s (handleKeyDown key s).1) :=
      queryInv_runEffects _ _ (fun hq => queryInv_handleKeyDown h key hq)
    split
    · exact queryInv_userSubmit h1
    · exact h1
  | hover index =>
    simp only [step]
    split
    · exact queryInv_frame h rfl id id
    · exact h
  | clickItem index =>
    simp only [step]
    split
    · split
      · apply queryInv_runEffects
        intro hq
        exact queryInv_handleSuggestionClick h _ hq
      · exact h
    · exact h
  | pressOutside => exact queryInv_frame h rfl (fun a => by cases a) id
  | clickClear =>
    simp only [step]
    split
    · exact h
    · rename_i hne
      apply queryInv_runEffects
      intro hq
      exact absurd hq.symm hne
  | clickCategory category =>
    simp only [step]
    split
    · apply queryInv_runEffects
      intro hq
      exact queryInv_frame h hq id id
    · exact h
  | clickChip index =>
    simp only [step]
    split
    · split
      · apply queryInv_runEffects
        intro hq
        exact queryInv_handleSuggestionClick h _ hq
      · exact h
    · exact h
  | submit => exact queryInv_userSubmit h
  | selectMarket market =>
    simp only [step]
    split
    · exact queryInv_frame h rfl id id
    · exact h
  | closeDetails => exact queryInv_frame h rfl id id
  | tick =>
    obtain ⟨_, _, _, t4, _, t6, t7, _⟩ := tick_fields s
    exact queryInv_frame h t4 (fun a => by rw [← t7]; exact a) (fun a => by rw [← t6]; exact a)
  | reply index r =>
    simp only [step]
    split
    · rename_i p hp
      have hq := (deliver_fields p r { s with pending := s.pending.eraseIdx index }).2.2.2.2.1
      by_cases hauto : ∃ q, p = .autocomplete q
      · obtain ⟨q, rfl⟩ := hauto
        exact queryInv_autocompleteReply h index q r hp hf
      · have hno : ∀ q, p ≠ .autocomplete q := fun q hq1 => hauto ⟨q, hq1⟩
        obtain ⟨d1, d2⟩ := deliver_other_fields p r { s with pending := s.pending.eraseIdx index } hno
        exact queryInv_frame h hq (fun a => by rw [← d1]; exact a) (fun a => by rw [← d2]; exact a)
    · exact h

theorem reachable_of_timely {s : State} (h : ReachableTimely s) : Reachable s := by
  induction h with
  | init => exact Reachable.init
  | step s i _ _ ih => exact Reachable.step s i ih

theorem queryInv_mounted : QueryInv mounted :=
  queryInv_autocompleteEffect _

theorem queryInv_of_timely {s : State} (h : ReachableTimely s) : QueryInv s := by
  induction h with
  | init => exact queryInv_mounted
  | step s i _ hf ih => exact queryInv_step ih i hf

theorem reachableTimely_run (inputs : List Input) : ∀ s, ReachableTimely s →
    timelyRun s inputs = true → ReachableTimely (run s inputs) := by
  induction inputs with
  | nil => intro s h _; exact h
  | cons x xs ih =>
    intro s h hf
    simp only [timelyRun, Bool.and_eq_true, Bool.not_eq_true'] at hf
    exact ih _ (ReachableTimely.step s x h hf.1) hf.2

/-- C3, counterexample: after the keystroke "ab" in the mounted component the
visibility flag is set while the suggestion list is still empty. -/
theorem visibility_flag_with_empty_list :
    Reachable (step mounted (.change "ab")) ∧
    (step mounted (.change "ab")).showAutocomplete = true ∧
    (step mounted (.change "ab")).autocompleteResults = [] ∧
    ¬ ((step mounted (.change "ab")).showAutocomplete = true →
        (step mounted (.change "ab")).autocompleteResults ≠ [] ∧
        2 ≤ jsLength (jsTrim (step mounted (.change "ab")).searchQuery)) := by
  refine ⟨Reachable.step mounted _ Reachable.init, by decide, by decide, ?_⟩
  intro h
  exact (h (by decide)).1 (by decide)

/-- A stale lookup reply shows the dropdown over a query of trimmed length 1:
the query "ab" is shortened to "a" while its lookup is in flight, and the
reply arrives afterwards. -/
theorem stale_reply_shows_short_query :
    Reachable (run mounted toStaleReply) ∧
    dropdownRendered (run mounted toStaleReply) = true ∧
    jsLength (jsTrim (run mounted toStaleReply).searchQuery) = 1 := by
  refine ⟨reachable_run _ mounted Reachable.init, ?_, ?_⟩ <;>
    (set_option maxRecDepth 1000000 in decide)

/-- The late delivery of suggestions always breaks the condition: whatever the
state, a successful reply with at least one event, delivered to a lookup in
flight, sets the visibility flag and leaves the query as it is. -/
theorem late_suggestions_show (s : State) (index : Nat) (q : String) (e : Event)
    (es : List Event) (total returned : Option Nat) (error : Option String)
    (hp : s.pending.get? index = some (.autocomplete q)) :
    (step s (.reply index (.search (.response true
        (.ok ⟨some (e :: es), total, returned, error⟩))))).showAutocomplete = true ∧
    (step s (.reply index (.search (.response true
        (.ok ⟨some (e :: es), total, returned, error⟩))))).searchQuery = s.searchQuery := by
  simp only [step, hp, deliver, autocompleteReply, if_true, uniqueSuggestions_eq,
    keepFirstByTitle, List.map_cons, List.take_succ_cons, List.length_cons]
  simp

/-- C3, amended: in every state reached without a late delivery of suggestions
(a successful lookup reply with at least one event that arrives while the
trimmed query is shorter than 2), a set visibility flag implies a trimmed
query of length at least 2, and so does a non-empty suggestion list (hence so
does the rendered dropdown). -/
theorem visible_implies_long_query (s : State) (h : ReachableTimely s) :
    (s.showAutocomplete = true → 2 ≤ jsLength (jsTrim s.searchQuery)) ∧
    (s.autocompleteResults ≠ [] → 2 ≤ jsLength (jsTrim s.searchQuery)) ∧
    (dropdownRendered s = true →
      s.autocompleteResults ≠ [] ∧ 2 ≤ jsLength (jsTrim s.searchQuery)) := by
  obtain ⟨h1, h2⟩ := queryInv_of_timely h
  refine ⟨h1, h2, ?_⟩
  intro hr
  simp only [dropdownRendered, Bool.and_eq_true, decide_eq_true_eq] at hr
  have hne : s.autocompleteResults ≠ [] := by
    intro h0
    rw [h0] at hr
    simp at hr
  exact ⟨hne, h2 hne⟩

/-- Witness for the visibility invariant: the reply to the lookup for "ab"
arrives after the query was extended to "abc"; the dropdown is shown over the
superseded suggestions and the trimmed query has length 3. -/
theorem visible_implies_long_query_witness :
    (run mounted toTypeAhead).showAutocomplete = true ∧
    2 ≤ jsLength (jsTrim (run mounted toTypeAhead).searchQuery) :=
  ⟨by set_option maxRecDepth 1000000 in decide,
    (visible_implies_long_query (run mounted toTypeAhead)
      (reachableTimely_run toTypeAhead mounted ReachableTimely.init
        (by set_option maxRecDepth 1000000 in decide))).1
      (by set_option maxRecDepth 1000000 in decide)⟩

/-! ## Explicit clear (C11) -/

theorem autocompleteEffect_log (x : State) :
    (autocompleteEffect x).log = x.log ∧
    (autocompleteEffect x).searchQuery = x.searchQuery ∧
    (autocompleteEffect x).activeCategory = x.activeCategory := by
  obtain ⟨_, _, c3, c4, c5, _⟩ := clearAutocompleteTimer_fields x
  obtain ⟨_, _, d3, d4, d5, _⟩ := clearAutocompleteTimer_fields (clearAutocompleteTimer x)
  unfold autocompleteEffect
  dsimp only
  split
  · exact ⟨d5.trans c5, d3.trans c3, d4.trans c4⟩
  · exact ⟨d5.trans c5, d3.trans c3, d4.trans c4⟩

/-- The clear button, in every state that renders it: the query is emptied and
the category reset, and the calls issued are one `loadEvents` for the category
of the state before the press, followed by a second, unscoped one when that
category was not "All". -/
theorem clear_requests (s : State) (hq : s.searchQuery ≠ "") :
    (step s .clickClear).searchQuery = "" ∧
    (step s .clickClear).activeCategory = "All" ∧
    (step s .clickClear).log = s.log ++
      (if s.activeCategory = "All" then
        [Call.loadEvents { query := none, category := none, limit := 100 }]
       else
        [Call.loadEvents { query := none, category := some s.activeCategory, limit := 100 },
         Call.loadEvents { query := none, category := none, limit := 100 }]) := by
  have hne : ("" : String) ≠ s.searchQuery := fun h => hq h.symm
  have hstep : step s .clickClear = runEffects s (handleClearClick s) := by
    simp [step, hq, commit]
  rw [hstep]
  unfold runEffects
  dsimp only
  by_cases hc : s.activeCategory = "All"
  · have hsame : ¬ (handleClearClick s).activeCategory ≠ s.activeCategory := by
      simp [handleClearClick, clearSearch, loadEvents, fetchCalls, hc]
    rw [if_neg hsame]
    have hchg : (handleClearClick s).searchQuery ≠ s.searchQuery := hne
    rw [if_pos hchg]
    obtain ⟨e1, e2, e3⟩ := autocompleteEffect_log (handleClearClick s)
    refine ⟨e2, e3, ?_⟩
    rw [e1]
    simp [handleClearClick, clearSearch, loadEvents, fetchCalls, hc]
  · have hdiff : (handleClearClick s).activeCategory ≠ s.activeCategory :=
      fun h => hc h.symm
    rw [if_pos hdiff]
    have hchg : (loadEvents (handleClearClick s).activeCategory (handleClearClick s)).searchQuery
        ≠ s.searchQuery := hne
    rw [if_pos hchg]
    obtain ⟨e1, e2, e3⟩ := autocompleteEffect_log
      (loadEvents (handleClearClick s).activeCategory (handleClearClick s))
    refine ⟨e2, e3, ?_⟩
    rw [e1]
    simp [handleClearClick, clearSearch, loadEvents, fetchCalls, hc]

/-- C11, failing input: with the category "Crypto" active and the query "btc"
typed (a reachable state), the clear button empties the query and resets the
category, and issues two calls: the first one scoped by "Crypto", the
category active before the press, the second one unscoped. -/
theorem clear_scoped_by_previous_category :
    Reachable scopedState ∧
    scopedState.activeCategory = "Crypto" ∧
    (step scopedState .clickClear).searchQuery = "" ∧
    (step scopedState .clickClear).activeCategory = "All" ∧
    (step scopedState .clickClear).log = scopedState.log ++
      [Call.loadEvents { query := none, category := some "Crypto", limit := 100 },
       Call.loadEvents { query := none, category := none, limit := 100 }] := by
  refine ⟨reachable_run toScoped mounted Reachable.init, ?_, ?_, ?_, ?_⟩ <;> decide

/-! ## Submit timers survive until they fire -/

theorem refInv_frame {s s1 : State} (h : RefInv s) (ht : s1.timers = s.timers)
    (hr : s1.autocompleteTimeoutRef = s.autocompleteTimeoutRef) : RefInv s1 := by
  unfold RefInv
  rw [ht, hr]
  exact h

theorem refInv_filter {s : State} (h : RefInv s) (p : Timer → Bool) :
    RefInv { s with timers := s.timers.filter p } :=
  fun t ht hr => h t (List.mem_of_mem_filter ht) hr

theorem refInv_clearAutocompleteTimer {s : State} (h : RefInv s) :
    RefInv (clearAutocompleteTimer s) := by
  unfold clearAutocompleteTimer
  split
  · exact refInv_filter h _
  · exact h

theorem refInv_autocompleteEffect {s : State} (hi : TimerInv s) (h : RefInv s) :
    RefInv (autocompleteEffect s) := by
  have hc : RefInv (clearAutocompleteTimer (clearAutocompleteTimer s)) :=
    refInv_clearAutocompleteTimer (refInv_clearAutocompleteTimer h)
  have hic : TimerInv (clearAutocompleteTimer (clearAutocompleteTimer s)) :=
    timerInv_clearAutocompleteTimer (timerInv_clearAutocompleteTimer hi)
  unfold autocompleteEffect
  dsimp only
  split
  · exact refInv_frame hc rfl rfl
  · generalize clearAutocompleteTimer (clearAutocompleteTimer s) = c at hc hic ⊢
    intro t ht hr
    simp only [setTimeout, List.mem_append, List.mem_singleton] at ht
    simp only [setTimeout, Option.some.injEq] at hr
    rcases ht with ht | ht
    · have := hic.id_lt t ht
      omega
    · subst ht
      rfl

theorem refInv_handleSuggestionClick {s : State} (hi : TimerInv s) (h : RefInv s)
    (sg : Suggestion) : RefInv (handleSuggestionClick sg s) := by
  intro t ht hr
  simp only [handleSuggestionClick, setTimeout, List.mem_append, List.mem_singleton] at ht
  rcases ht with ht | ht
  · exact h t ht hr
  · subst ht
    have := hi.ref_lt _ hr
    simp at this

theorem refInv_runEffects {s : State} (hi : TimerInv s) (h : RefInv s) (before : State) :
    RefInv (runEffects before s) := by
  unfold runEffects
  dsimp only
  split
  · have h1 : RefInv (loadEvents s.activeCategory s) := refInv_frame h rfl rfl
    split
    · exact refInv_autocompleteEffect (timerInv_loadEvents hi _) h1
    · exact h1
  · split
    · exact refInv_autocompleteEffect hi h
    · exact h

theorem refInv_commit {s : State} (handler : State → State) (hi : TimerInv (handler s))
    (h : RefInv (handler s)) : RefInv (commit handler s) :=
  refInv_runEffects hi h s

theorem refInv_userSubmit {s : State} (h : RefInv s) : RefInv (userSubmit s) := by
  unfold userSubmit
  split
  · exact h
  · exact refInv_frame h rfl rfl

theorem refInv_handleKeyDown {s : State} (hi : TimerInv s) (h : RefInv s) (key : Key) :
    RefInv (handleKeyDown key s).1 := by
  unfold handleKeyDown
  split
  · exact h
  · cases key <;> dsimp only
    · exact refInv_frame h rfl rfl
    · exact refInv_frame h rfl rfl
    · split
      · unfold handleAutocompleteSelect
        split
        · exact refInv_handleSuggestionClick hi h _
        · exact h
      · exact refInv_frame h rfl rfl
    · exact refInv_frame h rfl rfl
    · exact h

theorem refInv_tick {s : State} (h : RefInv s) : RefInv (tick s) := by
  obtain ⟨t1, t2, _⟩ := tick_fields s
  intro t ht hr
  rw [t1] at ht
  rw [t2] at hr
  simp only [keptTimers, List.mem_filter, List.mem_map] at ht
  obtain ⟨⟨u, hu, rfl⟩, _⟩ := ht
  exact h u hu hr

theorem refInv_step {s : State} (hi : TimerInv s) (h : RefInv s) (i : Input) :
    RefInv (step s i) := by
  cases i with
  | change value =>
    simp only [step]
    split
    · exact h
    · apply refInv_commit
      · exact timerInv_frame hi rfl rfl rfl rfl
      · exact refInv_frame h rfl rfl
  | focus =>
    simp only [step, handleFocus]
    split
    · exact refInv_frame h rfl rfl
    · exact h
  | keyDown key =>
    simp only [step]
    have h1 := refInv_runEffects (timerInv_handleKeyDown hi key) (refInv_handleKeyDown hi h key) s
    split
    · exact refInv_userSubmit h1
    · exact h1
  | hover index =>
    simp only [step]
    split
    · exact refInv_frame h rfl rfl
    · exact h
  | clickItem index =>
    simp only [step]
    split
    · split
      · apply refInv_commit
        · exact timerInv_handleAutocompleteSelect hi _
        · exact refInv_handleSuggestionClick hi h _
      · exact h
    · exact h
  | pressOutside => exact refInv_frame h rfl rfl
  | clickClear =>
    simp only [step]
    split
    · exact h
    · have h2 : TimerInv (clearSearch s) := by
        unfold clearSearch
        apply timerInv_loadEvents
        exact timerInv_frame hi rfl rfl rfl rfl
      apply refInv_commit
      · exact timerInv_frame h2 rfl rfl rfl rfl
      · exact refInv_frame h rfl rfl
  | clickCategory category =>
    simp only [step]
    split
    · apply refInv_commit
      · exact timerInv_frame hi rfl rfl rfl rfl
      · exact refInv_frame h rfl rfl
    · exact h
  | clickChip index =>
    simp only [step]
    split
    · split
      · apply refInv_commit
        · exact timerInv_handleSuggestionClick hi _
        · exact refInv_handleSuggestionClick hi h _
      · exact h
    · exact h
  | submit => exact refInv_userSubmit h
  | selectMarket market =>
    simp only [step]
    split
    · exact refInv_frame h rfl rfl
    · exact h
  | closeDetails => exact refInv_frame h rfl rfl
  | tick => exact refInv_tick h
  | reply index r =>
    simp only [step]
    split
    · rename_i p _
      obtain ⟨d1, d2, _⟩ := deliver_fields p r { s with pending := s.pending.eraseIdx index }
      exact refInv_frame h d1 d2
    · exact h

theorem refInv_mounted : RefInv mounted := by
  intro t ht
  revert t
  decide

theorem refInv_of_reachable {s : State} (h : Reachable s) : RefInv s := by
  induction h with
  | init => exact refInv_mounted
  | step s i hs ih => exact refInv_step (timerInv_of_reachable hs) ih i

theorem mem_runEffects (before s : State) (t : Timer) (ht : t ∈ s.timers)
    (hne : s.autocompleteTimeoutRef ≠ some t.id) : t ∈ (runEffects before s).timers := by
  unfold runEffects
  dsimp only
  split
  · split
    · exact autocompleteEffect_mem _ t ht hne
    · exact ht
  · split
    · exact autocompleteEffect_mem _ t ht hne
    · exact ht

theorem mem_handleSuggestionClick (sg : Suggestion) (s : State) (t : Timer)
    (ht : t ∈ s.timers) : t ∈ (handleSuggestionClick sg s).timers := by
  simp only [handleSuggestionClick, setTimeout, List.mem_append]
  exact Or.inl ht

theorem mem_handleKeyDown (key : Key) (s : State) (t : Timer) (ht : t ∈ s.timers) :
    t ∈ (handleKeyDown key s).1.timers ∧
    (handleKeyDown key s).1.autocompleteTimeoutRef = s.autocompleteTimeoutRef := by
  unfold handleKeyDown
  split
  · exact ⟨ht, rfl⟩
  · cases key <;> dsimp only
    · exact ⟨ht, rfl⟩
    · exact ⟨ht, rfl⟩
    · split
      · unfold handleAutocompleteSelect
        split
        · exact ⟨mem_handleSuggestionClick _ s t ht, rfl⟩
        · exact ⟨ht, rfl⟩
      · exact ⟨ht, rfl⟩
    · exact ⟨ht, rfl⟩
    · exact ⟨ht, rfl⟩

theorem mem_userSubmit (s : State) (t : Timer) (ht : t ∈ s.timers) :
    t ∈ (userSubmit s).timers := by
  unfold userSubmit
  split
  · exact ht
  · exact ht

/-- An input other than the passing of time removes no timer other than the
one named by the handle. -/
theorem mem_step (s : State) (i : Input) (t : Timer) (hi : i ≠ .tick) (ht : t ∈ s.timers)
    (hne : s.autocompleteTimeoutRef ≠ some t.id) : t ∈ (step s i).timers := by
  cases i with
  | change value =>
    simp only [step]
    split
    · exact ht
    · exact mem_runEffects s _ t ht hne
  | focus =>
    simp only [step, handleFocus]
    split
    · exact ht
    · exact ht
  | keyDown key =>
    simp only [step]
    obtain ⟨k1, k2⟩ := mem_handleKeyDown key s t ht
    have h1 := mem_runEffects s _ t k1 (by rw [k2]; exact hne)
    split
    · exact mem_userSubmit _ t h1
    · exact h1
  | hover index =>
    simp only [step]
    split
    · exact ht
    · exact ht
  | clickItem index =>
    simp only [step]
    split
    · split
      · exact mem_runEffects s _ t (mem_handleSuggestionClick _ s t ht) hne
      · exact ht
    · exact ht
  | pressOutside => exact ht
  | clickClear =>
    simp only [step]
    split
    · exact ht
    · exact mem_runEffects s _ t ht hne
  | clickCategory category =>
    simp only [step]
    split
    · exact mem_runEffects s _ t ht hne
    · exact ht
  | clickChip index =>
    simp only [step]
    split
    · split
      · exact mem_runEffects s _ t (mem_handleSuggestionClick _ s t ht) hne
      · exact ht
    · exact ht
  | submit => exact mem_userSubmit s t ht
  | selectMarket market =>
    simp only [step]
    split
    · exact ht
    · exact ht
  | closeDetails => exact ht
  | tick => exact absurd rfl hi
  | reply index r =>
    simp only [step]
    split
    · rename_i p _
      rw [(deliver_fields p r { s with pending := s.pending.eraseIdx index }).1]
      exact ht
    · exact ht

theorem mem_tick (s : State) (t : Timer) (ht : t ∈ s.timers) (hr : 2 ≤ t.remaining) :
    t.aged ∈ (tick s).timers := by
  rw [(tick_fields s).1]
  simp only [keptTimers, List.mem_filter, List.mem_map, bne_iff_ne]
  refine ⟨⟨t, ht, rfl⟩, ?_⟩
  simp only [Timer.aged]
  omega

theorem tickCount_cons_other (i : Input) (rest : List Input) (hi : i ≠ .tick) :
    tickCount (i :: rest) = tickCount rest := by
  cases i <;> first | rfl | exact absurd rfl hi

/-- A submit timer stays armed, ageing with the time units, through every run
that is shorter than its remaining time. -/
theorem submit_timer_persists (between : List Input) : ∀ (s : State) (t : Timer),
    TimerInv s → RefInv s → t ∈ s.timers → t.isLookup = false →
    tickCount between < t.remaining →
    ({ t with remaining := t.remaining - tickCount between } : Timer)
      ∈ (run s between).timers := by
  induction between with
  | nil => intro s t _ _ ht _ _; simpa [tickCount, run] using ht
  | cons i rest ih =>
    intro s t hinv href ht hl hlt
    rw [run_cons]
    by_cases hi : i = .tick
    · subst hi
      have hc : tickCount (Input.tick :: rest) = tickCount rest + 1 := rfl
      rw [hc] at hlt ⊢
      have h1 := mem_tick s t ht (by omega)
      have := ih (step s .tick) t.aged (timerInv_step hinv _) (refInv_step hinv href _) h1 hl
        (by simp only [Timer.aged]; omega)
      have he : ({ t.aged with remaining := t.aged.remaining - tickCount rest } : Timer)
          = { t with remaining := t.remaining - (tickCount rest + 1) } := by
        simp only [Timer.aged, Timer.mk.injEq, and_true, true_and]
        omega
      rw [he] at this
      exact this
    · rw [tickCount_cons_other i rest hi] at hlt ⊢
      have hne : s.autocompleteTimeoutRef ≠ some t.id := by
        intro hr
        have := href t ht hr
        rw [hl] at this
        cases this
      exact ih (step s i) t (timerInv_step hinv _) (refInv_step hinv href _)
        (mem_step s i t hi ht hne) hl hlt

/-- When a submit timer with one time unit left is armed, the next time unit
issues a full search with the parameters of the state at that moment, and
every full search issued by that time unit carries these parameters. -/
theorem submit_timer_fires (s : State) (id : Nat)
    (ht : ({ id := id, remaining := 1, task := .submit } : Timer) ∈ s.timers) :
    ∃ added, (step s .tick).log = s.log ++ added ∧
      Call.search (searchParams s) ∈ added ∧
      ∀ p, Call.search p ∈ added → p = searchParams s := by
  refine ⟨(dueTimers s).map (timerCall s), (tick_fields s).2.2.2.2.2.2.2.2, ?_, ?_⟩
  · have : timerCall s ({ id := id, remaining := 1, task := .submit } : Timer).aged
        = Call.search (searchParams s) := rfl
    rw [← this]
    apply List.mem_map_of_mem
    simp only [dueTimers, List.mem_filter, List.mem_map, beq_iff_eq]
    exact ⟨⟨_, ht, rfl⟩, rfl⟩
  · intro p hp
    obtain ⟨t, _, hc⟩ := List.mem_map.1 hp
    unfold timerCall at hc
    split at hc
    · cases hc
    · exact (Call.search.inj hc).symm

/-! ## Suggestion acceptance: the scheduled submission (C6) -/

/-- C6, counterexample: after the suggestion "B" was accepted, an input inside
the 100 time units before the scheduled submission changes what is searched:
typing "Bx" gives a full search for "Bx", and a press on the tab "Crypto"
gives a full search scoped by "Crypto" with no query. -/
theorem accept_then_input_changes_search :
    Reachable acceptedState ∧
    acceptedState.searchQuery = "B" ∧
    acceptedState.activeCategory = "All" ∧
    (run acceptedState (.change "Bx" :: List.replicate 100 .tick)).log.filter Call.isSearch
      = [Call.search { query := some "Bx", category := none, limit := 100 }] ∧
    (run acceptedState (.clickCategory "Crypto" :: List.replicate 100 .tick)).log.filter
        Call.isSearch
      = [Call.search { query := none, category := some "Crypto", limit := 100 }] := by
  refine ⟨Reachable.step visibleRecord _ (visibleState_eq ▸ visibleState_reachable),
    ?_, ?_, ?_, ?_⟩ <;>
    (set_option maxRecDepth 1000000 in decide)

/-- Enter accepts the highlighted suggestion also when the highlight was set
by the pointer and no arrow key was pressed. -/
theorem enter_after_hover_accepts :
    (run visibleRecord [.hover 1, .keyDown .enter]).searchQuery = "B" ∧
    (run visibleRecord [.hover 1, .keyDown .enter]).showAutocomplete = false := by
  constructor <;> decide

/-- C6, amended: in a reachable state that shows the dropdown, accepting
suggestion i (a click on item i, or Enter while item i is highlighted) sets
`searchQuery` to its title, `activeCategory` to "All", hides the dropdown and
resets the highlight.  Whatever happens in the 99 time units that follow, the
100th one fires the scheduled submission: a full search is issued with the
trimmed `searchQuery` (omitted when empty) and the `activeCategory` (omitted
when "All") of that moment and limit 100; it carries the trimmed title and no
category whenever the query still trims to the trimmed title and the category
is still "All". -/
theorem accept_suggestion (s : State) (i : Nat) (sg : Suggestion) (between : List Input)
    (hs : Reachable s) (hvis : dropdownRendered s = true)
    (hi : s.autocompleteResults.get? i = some sg) (hticks : tickCount between = 99) :
    ((step s (.clickItem i)).searchQuery = sg.title ∧
      (step s (.clickItem i)).activeCategory = "All" ∧
      (step s (.clickItem i)).showAutocomplete = false ∧
      (step s (.clickItem i)).selectedIndex = -1) ∧
    (s.selectedIndex = (i : Int) → step s (.keyDown .enter) = step s (.clickItem i)) ∧
    ∃ added,
      (step (run (step s (.clickItem i)) between) .tick).log
        = (run (step s (.clickItem i)) between).log ++ added ∧
      Call.search
        { query :=
            if jsTrim (run (step s (.clickItem i)) between).searchQuery = "" then none
            else some (jsTrim (run (step s (.clickItem i)) between).searchQuery)
          category :=
            if (run (step s (.clickItem i)) between).activeCategory = "All" then none
            else some (run (step s (.clickItem i)) between).activeCategory
          limit := 100 } ∈ added ∧
      (∀ p, Call.search p ∈ added → p =
        { query :=
            if jsTrim (run (step s (.clickItem i)) between).searchQuery = "" then none
            else some (jsTrim (run (step s (.clickItem i)) between).searchQuery)
          category :=
            if (run (step s (.clickItem i)) between).activeCategory = "All" then none
            else some (run (step s (.clickItem i)) between).activeCategory
          limit := 100 }) ∧
      (jsTrim (run (step s (.clickItem i)) between).searchQuery = jsTrim sg.title →
        (run (step s (.clickItem i)) between).activeCategory = "All" →
        Call.search
          { query := if jsTrim sg.title = "" then none else some (jsTrim sg.title)
            category := none, limit := 100 } ∈ added ∧
        ∀ p, Call.search p ∈ added → p =
          { query := if jsTrim sg.title = "" then none else some (jsTrim sg.title)
            category := none, limit := 100 }) := by
  have hinv := timerInv_of_reachable hs
  obtain ⟨a1, a2, a3, a4, a5⟩ := accept_fields hinv sg
  have hr1 : Reachable (step s (.clickItem i)) := Reachable.step s _ hs
  rw [step_clickItem i sg hvis hi] at hr1 ⊢
  refine ⟨⟨a1, a2, a3, a4⟩, fun hidx => step_enter_highlighted i sg hvis hi hidx, ?_⟩
  have hmem := submit_timer_persists between (commit (handleSuggestionClick sg) s) _
    (timerInv_of_reachable hr1) (refInv_of_reachable hr1) a5 rfl
    (by rw [hticks]; show 99 < 100; omega)
  rw [hticks] at hmem
  obtain ⟨added, g1, g2, g3⟩ := submit_timer_fires _ _ hmem
  have hp : searchParams (run (commit (handleSuggestionClick sg) s) between) =
      { query :=
          if jsTrim (run (commit (handleSuggestionClick sg) s) between).searchQuery = "" then none
          else some (jsTrim (run (commit (handleSuggestionClick sg) s) between).searchQuery)
        category :=
          if (run (commit (handleSuggestionClick sg) s) between).activeCategory = "All" then none
          else some (run (commit (handleSuggestionClick sg) s) between).activeCategory
        limit := 100 } := by
    unfold searchParams
    by_cases hc : (run (commit (handleSuggestionClick sg) s) between).activeCategory = "All"
    · simp [hc]
    · simp [hc]
  rw [hp] at g2 g3
  refine ⟨added, g1, g2, g3, ?_⟩
  intro hq hc
  rw [hq, hc] at g2 g3
  simpa using And.intro g2 g3

/-- Witness for the acceptance: a click on the second suggestion of
`visibleState`, followed by 99 quiet time units. -/
theorem accept_suggestion_witness :
    (step visibleState (.clickItem 1)).searchQuery = "B" ∧
    (step visibleState (.clickItem 1)).activeCategory = "All" ∧
    (step visibleState (.clickItem 1)).showAutocomplete = false ∧
    (step visibleState (.clickItem 1)).selectedIndex = -1 :=
  (accept_suggestion visibleState 1
    { title := "B", category := "Crypto", event_ticker := some "EB" }
    (List.replicate 99 .tick)
    visibleState_reachable
    (by set_option maxRecDepth 1000000 in decide)
    (by set_option maxRecDepth 1000000 in decide)
    (by set_option maxRecDepth 1000000 in decide)).1

end TradeGuard
